import Mathlib

/-!
Verification of the symbolic stack tracker library (`stack.rs`, `optimizer.rs`,
`script_util.rs`, `debugger.rs`) against its natural-language specification.

The development is a shallow embedding: scripts are modelled at the
instruction level (the byte encode/decode round-trip is performed by the
external `bitcoin` crate and is not part of this repository's code), machine
integers are modelled as `Nat` (the one place where `usize` wrap-around
semantics of a release build is observable - the `i -= 1` at `i = 0` inside
the optimiser loop - is modelled explicitly with the wrapped value), and
panicking code paths are modelled with `Option`, `none` standing for a panic.
-/

/-! ## Instructions and opcodes

`Instruction` mirrors `bitcoin::script::Instruction`: an instruction is
either a one-byte opcode or a push of a byte string. -/

inductive Instruction where
  | op (code : Nat)
  | pushBytes (bytes : List Nat)
deriving DecidableEq, Repr

def OP_TOALTSTACK : Nat := 107
def OP_FROMALTSTACK : Nat := 108
def OP_2DROP : Nat := 109
def OP_2DUP : Nat := 110
def OP_3DUP : Nat := 111
def OP_DROP : Nat := 117
def OP_DUP : Nat := 118
def OP_OVER : Nat := 120
def OP_PICK : Nat := 121
def OP_ROLL : Nat := 122
def OP_ROT : Nat := 123
def OP_SWAP : Nat := 124
def OP_EQUALVERIFY : Nat := 136

/-- Little-endian base-256 digits of a natural number (empty for zero). -/
def natLE (n : Nat) : List Nat :=
  if h : n = 0 then [] else (n % 256) :: natLE (n / 256)
termination_by n
decreasing_by exact Nat.div_lt_self (Nat.pos_of_ne_zero h) (by norm_num)

/-- Minimal script-number encoding of a non-negative integer: little-endian
bytes with a zero byte appended when the most significant bit is set. -/
def scriptNumOf (n : Nat) : List Nat :=
  let b := natLE n
  match b.getLast? with
  | none => b
  | some last => if 128 ≤ last then b ++ [0] else b

/-- Push of the integer `n` as emitted by the script builder: `OP_0` for zero,
`OP_1`..`OP_16` for 1..16, otherwise a minimal push of the encoded bytes. -/
def pushNum (n : Nat) : Instruction :=
  if n = 0 then .op 0 else if n ≤ 16 then .op (80 + n) else .pushBytes (scriptNumOf n)

/-- A script fragment: the instruction-level view of a `Script`. -/
abbrev Frag := List Instruction

/-! ## `script_util.rs` fragment builders -/

/-- Embedding of `script_util::move_from`: `size` repetitions of
pushing `address + size - 1` followed by `OP_ROLL`. -/
def move_from (address size : Nat) : Frag :=
  (List.replicate size [pushNum (address + size - 1), Instruction.op OP_ROLL]).flatten

/-- Embedding of `script_util::copy_from`: `size` repetitions of
pushing `address + size - 1` followed by `OP_PICK`. -/
def copy_from (address size : Nat) : Frag :=
  (List.replicate size [pushNum (address + size - 1), Instruction.op OP_PICK]).flatten

/-- Embedding of `script_util::drop_count`: `n / 2` times `OP_2DROP` and a
final `OP_DROP` when `n` is odd. -/
def drop_count (n : Nat) : Frag :=
  List.replicate (n / 2) (Instruction.op OP_2DROP) ++
    (if n % 2 = 1 then [Instruction.op OP_DROP] else [])

/-- Embedding of `script_util::toaltstack`: `n` times `OP_TOALTSTACK`. -/
def toaltstackF (n : Nat) : Frag := List.replicate n (Instruction.op OP_TOALTSTACK)

/-- Embedding of `script_util::fromaltstack`: `n` times `OP_FROMALTSTACK`. -/
def fromaltstackF (n : Nat) : Frag := List.replicate n (Instruction.op OP_FROMALTSTACK)

/-! ## The peephole optimiser (`optimizer.rs`)

The optimiser is a forward pass over the decoded instruction list.  The Rust
loop mutates the vector in place and manipulates a `usize` index `i`; the
`i -= 1` executed when a rule fires at `i = 0` wraps around to `usize::MAX`
(release-build semantics), after which the `i >= len` check exits the loop.
Out-of-bounds accesses (`instructions[i-1]` with `i = 0`) panic and are
modelled as `none`. -/

def USIZE_MAX : Nat := 2 ^ 64 - 1

/-- Embedding of `optimizer::get_digit`: opcode `0x00` and the empty push
encode the digit 0, `OP_1`..`OP_16` (`0x51`..`0x60`) encode 1..16. -/
def get_digit : Instruction → Option Nat
  | .op v => if v = 0 then some 0 else if 81 ≤ v ∧ v ≤ 96 then some (v - 80) else none
  | .pushBytes bs => if bs.length = 0 then some 0 else none

/-- Embedding of `optimizer::count_ahead`: the number of consecutive
successors of position `i` equal to the instruction at position `i`. -/
def count_ahead_from (target : Instruction) : List Instruction → Nat
  | [] => 0
  | x :: rest => if x = target then 1 + count_ahead_from target rest else 0

def count_ahead (instrs : List Instruction) (i : Nat) : Nat :=
  match instrs[i]? with
  | some t => count_ahead_from t (instrs.drop (i + 1))
  | none => 0

/-- Dup-sequence table of `optimizer::replace`, keyed by the `count`
argument (the number of equal successors of the run head). -/
def dupTable : Nat → List Nat
  | 3 => [1, 2]
  | 4 => [1, 1, 2]
  | 5 => [1, 2, 2]
  | 6 => [1, 2, 3]
  | 7 => [1, 2, 2, 2]
  | 8 => [1, 2, 2, 3]
  | 9 => [1, 2, 3, 3]
  | 10 => [1, 2, 2, 2, 3]
  | 11 => [1, 2, 2, 3, 3]
  | 12 => [1, 2, 3, 3, 3]
  | 13 => [1, 2, 2, 2, 3, 3]
  | 14 => [1, 2, 2, 3, 3, 3]
  | 15 => [1, 2, 3, 3, 3, 3]
  | _ => []

def dupOp : Nat → Instruction
  | 1 => .op OP_DUP
  | 2 => .op OP_2DUP
  | _ => .op OP_3DUP

/-- Overwrite consecutive positions of a list starting at `i` (models the
`instructions[i+1] = ...; i += 1` loop of `optimizer::replace`). -/
def overwriteFrom (l : List Instruction) (i : Nat) : List Instruction → List Instruction
  | [] => l
  | x :: xs => overwriteFrom (l.set i x) (i + 1) xs

/-- Remove `n` consecutive elements starting at position `i` (models
`Vec::drain(i..i+n)`). -/
def removeRange (l : List Instruction) (i n : Nat) : List Instruction :=
  l.take i ++ l.drop (i + n)

/-- Embedding of `optimizer::replace`.  Returns the rewritten list together
with the pair `(new_size, drain)` returned by the Rust function. -/
def replace (instrs : List Instruction) (i count : Nat) : List Instruction × Nat × Nat :=
  match dupTable count with
  | [] => (instrs, 0, 0)
  | op0 :: rest =>
    let ops := op0 :: rest
    let new_size := ops.length
    let drain := count - new_size
    let written := overwriteFrom instrs (i + 1) (ops.map dupOp)
    (removeRange written (i + new_size + 1) drain, new_size, drain)

/-- First rule of the optimiser loop body: `OP_TOALTSTACK` immediately
followed by `OP_FROMALTSTACK` is deleted and `i` is decremented (with
`usize` wrap-around at zero). -/
def stage1 (instrs : List Instruction) (i : Nat) : List Instruction × Nat :=
  if instrs[i]? = some (.op OP_TOALTSTACK) ∧ i + 1 < instrs.length ∧
      instrs[i + 1]? = some (.op OP_FROMALTSTACK) then
    (removeRange instrs i 2, if i = 0 then USIZE_MAX else i - 1)
  else (instrs, i)

/-- Second rule: a digit push followed by `OP_PICK` becomes `OP_DUP`
(digit 0) or `OP_OVER` (digit 1).  `none` models the index panic when
`OP_PICK` sits at position 0. -/
def stage2 (instrs : List Instruction) (i : Nat) : Option (List Instruction × Nat) :=
  if instrs[i]? = some (.op OP_PICK) then
    if i = 0 then none
    else
      match instrs[i - 1]? with
      | none => none
      | some prev =>
        match get_digit prev with
        | some 0 => some (removeRange (instrs.set (i - 1) (.op OP_DUP)) i 1, i - 1)
        | some 1 => some (removeRange (instrs.set (i - 1) (.op OP_OVER)) i 1, i - 1)
        | _ => some (instrs, i)
  else some (instrs, i)

/-- Third rule: a digit push followed by `OP_ROLL` is deleted (digit 0) or
becomes `OP_SWAP` (digit 1) or `OP_ROT` (digit 2). -/
def stage3 (instrs : List Instruction) (i : Nat) : Option (List Instruction × Nat) :=
  if instrs[i]? = some (.op OP_ROLL) then
    if i = 0 then none
    else
      match instrs[i - 1]? with
      | none => none
      | some prev =>
        match get_digit prev with
        | some 0 => some (removeRange instrs (i - 1) 2, i - 1)
        | some 1 => some (removeRange (instrs.set (i - 1) (.op OP_SWAP)) i 1, i - 1)
        | some 2 => some (removeRange (instrs.set (i - 1) (.op OP_ROT)) i 1, i - 1)
        | _ => some (instrs, i)
  else some (instrs, i)

/-- Fourth rule: a digit run is collapsed through `replace`, and `i`
advances past the inserted dup sequence. -/
def stage4 (instrs : List Instruction) (i : Nat) : List Instruction × Nat :=
  match instrs[i]? with
  | some ins =>
    if (get_digit ins).isSome then
      let count := count_ahead instrs i
      let (instrs2, new_size, _) := replace instrs i count
      (instrs2, i + new_size)
    else (instrs, i)
  | none => (instrs, i)

/-- One-pass optimiser loop, fuel-recursive.  `none` models a panic (or,
unreachably for the inputs considered here, fuel exhaustion). -/
def optLoop : Nat → List Instruction → Nat → Option (List Instruction)
  | 0, _, _ => none
  | fuel + 1, instrs, i =>
    if i < instrs.length then
      let s1 := stage1 instrs i
      if s1.2 ≥ s1.1.length then some s1.1 else
      match stage2 s1.1 s1.2 with
      | none => none
      | some s2 =>
        if s2.2 ≥ s2.1.length then some s2.1 else
        match stage3 s2.1 s2.2 with
        | none => none
        | some s3 =>
          if s3.2 ≥ s3.1.length then some s3.1 else
          let s4 := stage4 s3.1 s3.2
          optLoop fuel s4.1 (s4.2 + 1)
    else some instrs

/-- Embedding of `optimizer::optimize` at the instruction level.  The fuel
`2 * length + 1` dominates the loop's iteration count (each iteration
strictly decreases `2 * len - i`). -/
def optimize (instrs : List Instruction) : Option (List Instruction) :=
  optLoop (2 * instrs.length + 1) instrs 0


/-! ## The symbolic stack model (`StackData` in `stack.rs`)

The name map (a Rust `HashMap<u32, String>`) is modelled as an association
list with insert-or-replace semantics; all claims compare whole models
produced by identical operation sequences, for which any deterministic map
representation is equivalent. -/

structure StackVariable where
  id : Nat
  size : Nat
deriving DecidableEq, Repr

inductive RedoOps where
  | PushStack (v : StackVariable)
  | PushAltstack (v : StackVariable)
  | PopStack
  | PopAltstack
  | SetName (v : StackVariable) (name : String)
  | RemoveName (v : StackVariable)
  | RemoveVar (v : StackVariable)
  | DecreaseSize (v : StackVariable)
  | IncreaseSize (idx : Nat) (next_size : Nat)
deriving DecidableEq, Repr

/-- Insert-or-replace into the association-list model of the name map. -/
def mapInsert (m : List (Nat × String)) (k : Nat) (v : String) : List (Nat × String) :=
  if m.any (fun p => p.1 = k) then m.map (fun p => if p.1 = k then (k, v) else p)
  else m ++ [(k, v)]

def mapRemove (m : List (Nat × String)) (k : Nat) : List (Nat × String) :=
  m.filter (fun p => p.1 ≠ k)

def mapLookup (m : List (Nat × String)) (k : Nat) : Option String :=
  (m.find? (fun p => p.1 = k)).map (fun p => p.2)

structure StackData where
  stack : List StackVariable
  altstack : List StackVariable
  names : List (Nat × String)
  redo_log : List RedoOps
  with_redo_log : Bool
deriving DecidableEq, Repr

namespace StackData

def new (with_redo_log : Bool) : StackData :=
  ⟨[], [], [], [], with_redo_log⟩

/-- Append a journal entry when journaling is on. -/
def log (d : StackData) (e : RedoOps) : List RedoOps :=
  if d.with_redo_log then d.redo_log ++ [e] else d.redo_log

def push_stack (d : StackData) (v : StackVariable) : StackData :=
  { d with stack := d.stack ++ [v], redo_log := d.log (.PushStack v) }

def push_altstack (d : StackData) (v : StackVariable) : StackData :=
  { d with altstack := d.altstack ++ [v], redo_log := d.log (.PushAltstack v) }

/-- Embedding of `StackData::pop_stack`; `none` models the `unwrap` panic on
an empty stack (the journal entry is written before the failing pop, but a
panic aborts the whole computation). -/
def pop_stack (d : StackData) : Option (StackData × StackVariable) :=
  match d.stack.getLast? with
  | none => none
  | some v =>
    some ({ d with stack := d.stack.dropLast, redo_log := d.log .PopStack }, v)

def pop_altstack (d : StackData) : Option (StackData × StackVariable) :=
  match d.altstack.getLast? with
  | none => none
  | some v =>
    some ({ d with altstack := d.altstack.dropLast, redo_log := d.log .PopAltstack }, v)

def set_name (d : StackData) (v : StackVariable) (name : String) : StackData :=
  { d with names := mapInsert d.names v.id name, redo_log := d.log (.SetName v name) }

def remove_name (d : StackData) (v : StackVariable) : StackData :=
  { d with names := mapRemove d.names v.id, redo_log := d.log (.RemoveName v) }

def remove_var (d : StackData) (v : StackVariable) : StackData :=
  { d with stack := d.stack.filter (fun x => x.id ≠ v.id), redo_log := d.log (.RemoveVar v) }

/-- Embedding of `StackData::increase_size`; `none` models the index panic. -/
def increase_size (d : StackData) (idx : Nat) (next_size : Nat) : Option StackData :=
  match d.stack[idx]? with
  | none => none
  | some x =>
    some { d with stack := d.stack.set idx ⟨x.id, x.size + next_size⟩
                  redo_log := d.log (.IncreaseSize idx next_size) }

def decrease_size (d : StackData) (v : StackVariable) : StackData :=
  { d with stack := d.stack.map (fun x => if x.id = v.id then ⟨x.id, x.size - 1⟩ else x)
           redo_log := d.log (.DecreaseSize v) }

/-- Replay of a single journal entry onto a (journal-disabled) model, as in
the `match` of `StackData::new_from_redo_height`. -/
def applyEntry (d : StackData) : RedoOps → Option StackData
  | .PushStack v => some (d.push_stack v)
  | .PushAltstack v => some (d.push_altstack v)
  | .PopStack => (d.pop_stack).map (fun r => r.1)
  | .PopAltstack => (d.pop_altstack).map (fun r => r.1)
  | .SetName v name => some (d.set_name v name)
  | .RemoveName v => some (d.remove_name v)
  | .RemoveVar v => some (d.remove_var v)
  | .DecreaseSize v => some (d.decrease_size v)
  | .IncreaseSize idx k => d.increase_size idx k

def applyRedo (d : StackData) : List RedoOps → Option StackData
  | [] => some d
  | e :: rest =>
    match d.applyEntry e with
    | none => none
    | some d1 => d1.applyRedo rest

/-- Embedding of `StackData::new_from_redo_height`: replay the first `h`
journal entries onto a fresh journal-disabled model.  `none` models the
index panic when `h` exceeds the journal length, or a panic during replay. -/
def new_from_redo_height (d : StackData) (h : Nat) : Option StackData :=
  if h ≤ d.redo_log.length then (StackData.new false).applyRedo (d.redo_log.take h)
  else none

end StackData

/-- The stack/altstack/names content of a model, as a journal-disabled
model - the shape produced by a completed replay. -/
def strip (d : StackData) : StackData :=
  ⟨d.stack, d.altstack, d.names, [], false⟩

/-! ## The stack tracker (`StackTracker` in `stack.rs`) -/

structure StackTracker where
  data : StackData
  script : List Frag
  history : List Nat
  counter : Nat
  max_stack_size : Nat
  with_history : Bool
  breakpoint : List (Nat × String)
deriving DecidableEq, Repr

/-- Sum of the `size` fields of the variables of a stack, as computed by the
fold inside `StackTracker::push`. -/
def totalSize (l : List StackVariable) : Nat :=
  l.foldl (fun acc f => acc + f.size) 0

namespace StackTracker

def new : StackTracker :=
  ⟨StackData.new true, [], [], 0, 0, true, []⟩

/-- Embedding of the private `StackTracker::push`: push onto the model's
main stack and update the running maximum of the total stack size. -/
def pushVar (t : StackTracker) (v : StackVariable) : StackTracker :=
  let d := t.data.push_stack v
  { t with data := d, max_stack_size := Nat.max t.max_stack_size (totalSize d.stack) }

/-- Embedding of the private `StackTracker::push_script`: append the
fragment and record the current journal length in the history. -/
def push_scriptF (t : StackTracker) (s : Frag) : StackTracker :=
  { t with script := t.script ++ [s]
           history := if t.with_history then t.history ++ [t.data.redo_log.length]
                      else t.history }

/-- Offset scan of `StackTracker::get_offset`: walk the main stack from the
top accumulating sizes; `none` models the "not part of the stack" panic. -/
def offsetAux (v : StackVariable) : List StackVariable → Nat → Option Nat
  | [], _ => none
  | x :: rest, acc => if v.id = x.id then some acc else offsetAux v rest (acc + x.size)

def get_offset (t : StackTracker) (v : StackVariable) : Option Nat :=
  offsetAux v t.data.stack.reverse 0

/-- Embedding of `StackTracker::define`: fresh id, push, name; no fragment
and no history entry are appended. -/
def defineT (t : StackTracker) (size : Nat) (name : String) : StackTracker × StackVariable :=
  let c := t.counter + 1
  let v : StackVariable := ⟨c, size⟩
  let t1 := pushVar { t with counter := c } v
  ({ t1 with data := t1.data.set_name v name }, v)

/-- Embedding of `StackTracker::var`: the same mutations as `define`
followed by `push_script script`. -/
def varT (t : StackTracker) (size : Nat) (s : Frag) (name : String) :
    StackTracker × StackVariable :=
  let (t1, v) := defineT t size name
  (push_scriptF t1 s, v)

/-- Embedding of `StackTracker::number` (the name-formatting of the hex
value is collapsed to a decimal rendering; names are opaque strings). -/
def numberT (t : StackTracker) (n : Nat) : StackTracker × StackVariable :=
  varT t 1 [pushNum n] ("number(" ++ toString n ++ ")")

/-- Embedding of `StackTracker::rename`. -/
def renameT (t : StackTracker) (v : StackVariable) (name : String) : StackTracker :=
  { t with data := t.data.set_name v name }

/-- Embedding of `StackTracker::drop`; `none` models the assertion that the
dropped variable is on top (and the `unwrap` on an empty stack). -/
def dropT (t : StackTracker) (v : StackVariable) : Option StackTracker :=
  match t.data.stack.getLast? with
  | none => none
  | some last =>
    if last.id = v.id then
      match t.data.pop_stack with
      | none => none
      | some (d1, _) =>
        some (push_scriptF { t with data := (d1.remove_name v) } (drop_count v.size))
    else none

/-- Embedding of `StackTracker::to_altstack`. -/
def to_altstackT (t : StackTracker) : Option (StackTracker × StackVariable) :=
  match t.data.pop_stack with
  | none => none
  | some (d1, v) =>
    some (push_scriptF { t with data := d1.push_altstack v } (toaltstackF v.size), v)

/-- Embedding of `StackTracker::from_altstack`. -/
def from_altstackT (t : StackTracker) : Option (StackTracker × StackVariable) :=
  match t.data.pop_altstack with
  | none => none
  | some (d1, v) =>
    some (push_scriptF (pushVar { t with data := d1 } v) (fromaltstackF v.size), v)

/-- Embedding of `StackTracker::move_var`: no-op when the variable is on
top, otherwise remove, re-push on top and emit `move_from offset size`. -/
def move_var (t : StackTracker) (v : StackVariable) : Option (StackTracker × StackVariable) :=
  match get_offset t v with
  | none => none
  | some off =>
    if off = 0 then some (t, v)
    else
      let t1 := pushVar { t with data := t.data.remove_var v } v
      some (push_scriptF t1 (move_from off v.size), v)

/-- Embedding of `StackTracker::copy_var`; the fresh copy is renamed
`copy(<original name>)` (`none` models the missing-name panic). -/
def copy_var (t : StackTracker) (v : StackVariable) : Option (StackTracker × StackVariable) :=
  match get_offset t v with
  | none => none
  | some off =>
    match mapLookup t.data.names v.id with
    | none => none
    | some nm =>
      let c := t.counter + 1
      let nv : StackVariable := ⟨c, v.size⟩
      let t1 := pushVar { t with counter := c } nv
      let t2 := renameT t1 nv ("copy(" ++ nm ++ ")")
      some (push_scriptF t2 (copy_from off v.size), nv)

/-- Embedding of `StackTracker::copy_var_sub_n`: a single-entry copy of the
`n`-th entry of `v`, emitting `copy_from (offset + size - 1 - n) 1`. -/
def copy_var_sub_n (t : StackTracker) (v : StackVariable) (n : Nat) :
    Option (StackTracker × StackVariable) :=
  match get_offset t v with
  | none => none
  | some off =>
    let offn := off + v.size - 1 - n
    let c := t.counter + 1
    let nv : StackVariable := ⟨c, 1⟩
    let t1 := pushVar { t with counter := c } nv
    some (push_scriptF t1 (copy_from offn 1), nv)

/-- Embedding of `StackTracker::move_var_sub_n`: the assertion `size > n`
is modelled by the guard; `v`'s size shrinks by one (the returned middle
component is the updated variable, mirroring the `&mut` argument) and the
variable is removed from the model when its size reaches zero. -/
def move_var_sub_n (t : StackTracker) (v : StackVariable) (n : Nat) :
    Option (StackTracker × StackVariable × StackVariable) :=
  if n < v.size then
    match get_offset t v with
    | none => none
    | some off =>
      let offn := off + v.size - 1 - n
      let v1 : StackVariable := ⟨v.id, v.size - 1⟩
      let d1 := t.data.decrease_size v1
      let d2 := if v1.size = 0 then d1.remove_var v1 else d1
      let c := t.counter + 1
      let nv : StackVariable := ⟨c, 1⟩
      let t1 := pushVar { t with data := d2, counter := c } nv
      some (push_scriptF t1 (move_from offn 1), v1, nv)
  else none

/-- Embedding of `StackTracker::join`: fuse `v` with the variable directly
above it.  A variable not found on the stack leaves everything unchanged
(the Rust loop simply completes); `none` models the assertion failure when
`v` is the last variable. -/
def joinT (t : StackTracker) (v : StackVariable) : Option (StackTracker × StackVariable) :=
  match t.data.stack.findIdx? (fun x => x.id = v.id) with
  | none => some (t, v)
  | some i =>
    match t.data.stack[i + 1]? with
    | none => none
    | some next =>
      let v1 : StackVariable := ⟨v.id, v.size + next.size⟩
      match t.data.increase_size i next.size with
      | none => none
      | some d1 => some ({ t with data := d1.remove_var next }, v1)

/-- Sequential pops of `custom_ex`'s `consumes` loop. -/
def popN (d : StackData) : Nat → Option StackData
  | 0 => some d
  | k + 1 =>
    match d.pop_stack with
    | none => none
    | some (d1, _) => popN d1 k

/-- Sequential `define`s for `custom_ex`'s `output_vars` loop. -/
def defineAll (t : StackTracker) : List (Nat × String) → StackTracker × List StackVariable
  | [] => (t, [])
  | (sz, nm) :: rest =>
    let r1 := defineT t sz nm
    let r2 := defineAll r1.1 rest
    (r2.1, r1.2 :: r2.2)

/-- Sequential alt-stack pushes of fresh size-1 variables for `custom_ex`'s
`to_altstack` loop. -/
def altPushN (t : StackTracker) : Nat → StackTracker
  | 0 => t
  | k + 1 =>
    let c := t.counter + 1
    altPushN { t with counter := c, data := t.data.push_altstack ⟨c, 1⟩ } k

/-- Embedding of `StackTracker::custom_ex`: pop `consumes` variables, then
either define the output variables and push the script, or push `toAlt`
fresh size-1 variables to the alt stack and push the script. -/
def custom_ex (t : StackTracker) (s : Frag) (consumes : Nat)
    (outs : List (Nat × String)) (toAlt : Nat) : Option (StackTracker × List StackVariable) :=
  match popN t.data consumes with
  | none => none
  | some d =>
    let t1 := { t with data := d }
    if outs.length > 0 then
      let r := defineAll t1 outs
      some (push_scriptF r.1 s, r.2)
    else
      some (push_scriptF (altPushN t1 toAlt) s, [])

/-- Embedding of `StackTracker::op_swap`: reorder the two top variables in
the model, then emit `OP_SWAP` through the zero-consume `op` path. -/
def op_swap (t : StackTracker) : Option StackTracker :=
  match t.data.pop_stack with
  | none => none
  | some (d1, x) =>
    match d1.pop_stack with
    | none => none
    | some (d2, y) =>
      let d3 := (d2.push_stack x).push_stack y
      match custom_ex { t with data := d3 } [.op OP_SWAP] 0 [] 0 with
      | none => none
      | some (t1, _) => some t1

/-- Embedding of `StackTracker::set_breakpoint`: an empty fragment plus a
named position record. -/
def set_breakpointT (t : StackTracker) (name : String) : StackTracker :=
  let t1 := push_scriptF t []
  { t1 with breakpoint := t1.breakpoint ++ [(t1.script.length - 1, name)] }

/-- Embedding of `StackTracker::debug`: pushes an empty fragment (the
diagnostic printing has no effect on the tracker and is elided). -/
def debugT (t : StackTracker) : StackTracker :=
  push_scriptF t []

/-- Embedding of `StackTracker::get_script`: concatenation of the
accumulated fragments. -/
def get_script (t : StackTracker) : Frag :=
  t.script.flatten

/-- Embedding of `StackTracker::get_script_len`. -/
def get_script_len (t : StackTracker) : Nat :=
  t.script.length

/-- Embedding of `StackTracker::get_max_stack_size`. -/
def get_max_stack_size (t : StackTracker) : Nat :=
  t.max_stack_size

/-- Embedding of `StackTracker::op_ifdup`: the method unconditionally
panics with this message before touching any state; the panic is modelled
as an error value. -/
def op_ifdup (_t : StackTracker) : Except String (StackTracker × StackVariable) :=
  .error "OP_IFDUP not implemented as it's not possible to know if it would output a value"

/-- Embedding of `StackTracker::op_roll`: unconditional panic, modelled as
an error value. -/
def op_roll (_t : StackTracker) : Except String (StackTracker × StackVariable) :=
  .error "OP_ROLL not implemented as it would consume an undefined position on the stack"

end StackTracker

/-! ## Tracker verb programs

`Verb` enumerates an invocation of one of the modelled public tracker
verbs together with its arguments; `runVerb` dispatches to the embeddings
above.  Quantifying over `List Verb` quantifies over every sequence of
these verb invocations (variable arguments range over arbitrary
`StackVariable` values, a superset of the handles the tracker hands out). -/

inductive Verb where
  | vdefine (size : Nat) (name : String)
  | vvar (size : Nat) (s : Frag) (name : String)
  | vnumber (n : Nat)
  | vrename (v : StackVariable) (name : String)
  | vdrop (v : StackVariable)
  | vtoalt
  | vfromalt
  | vmove (v : StackVariable)
  | vcopy (v : StackVariable)
  | vmovesub (v : StackVariable) (n : Nat)
  | vcopysub (v : StackVariable) (n : Nat)
  | vjoin (v : StackVariable)
  | vcustom (s : Frag) (consumes : Nat) (outs : List (Nat × String)) (toAlt : Nat)
  | vswap
  | vbreakpoint (name : String)
  | vdebug
deriving DecidableEq, Repr

open StackTracker in
def runVerb (t : StackTracker) : Verb → Option StackTracker
  | .vdefine size name => some (defineT t size name).1
  | .vvar size s name => some (varT t size s name).1
  | .vnumber n => some (numberT t n).1
  | .vrename v name => some (renameT t v name)
  | .vdrop v => dropT t v
  | .vtoalt => (to_altstackT t).map (fun r => r.1)
  | .vfromalt => (from_altstackT t).map (fun r => r.1)
  | .vmove v => (move_var t v).map (fun r => r.1)
  | .vcopy v => (copy_var t v).map (fun r => r.1)
  | .vmovesub v n => (move_var_sub_n t v n).map (fun r => r.1)
  | .vcopysub v n => (copy_var_sub_n t v n).map (fun r => r.1)
  | .vjoin v => (joinT t v).map (fun r => r.1)
  | .vcustom s consumes outs toAlt => (custom_ex t s consumes outs toAlt).map (fun r => r.1)
  | .vswap => op_swap t
  | .vbreakpoint name => some (set_breakpointT t name)
  | .vdebug => some (debugT t)

/-- Number of script fragments (and history entries) a verb invocation
appends: zero for `define`, `rename` and `join`, zero for `move_var` of a
variable already on top (offset 0), one for every other verb here. -/
def fragCount (t : StackTracker) : Verb → Nat
  | .vdefine _ _ => 0
  | .vrename _ _ => 0
  | .vjoin _ => 0
  | .vmove v =>
    match t.get_offset v with
    | some 0 => 0
    | _ => 1
  | _ => 1

def runFrom (t : StackTracker) : List Verb → Option StackTracker
  | [] => some t
  | v :: vs =>
    match runVerb t v with
    | none => none
    | some t1 => runFrom t1 vs

/-- All trackers reached while running a program, the start state included. -/
def trace (t : StackTracker) : List Verb → Option (List StackTracker)
  | [] => some [t]
  | v :: vs =>
    match runVerb t v with
    | none => none
    | some t1 => (trace t1 vs).map (fun l => t :: l)

/-! ## The execution adapter (`debugger.rs`)

The external script executor (`bitcoin_scriptexec`) is abstracted as an
arbitrary function from the compiled instruction sequence to an outcome;
`execute_step` is embedded on top of it.  The string formatting of the
annotated stacks is elided: the annotation is kept structurally as
`(id, size, name, entries)` tuples. -/

structure ExecOutcome where
  success : Bool
  error : Option String
  stackEntries : List (List Nat)
  altEntries : List (List Nat)
  lastOpcode : String

structure StepResult where
  error : Bool
  error_msg : String
  success : Bool
  last_opcode : String
  stack : List (Nat × Nat × String × List (List Nat))
  altstack : List (Nat × Nat × String × List (List Nat))

/-- Annotation loop of `debugger::show_stacks`: peel `size` concrete
entries per variable, pairing them with the variable's id, size and name
(default name "unknown"). -/
def show_stacks_go (names : List (Nat × String)) :
    List StackVariable → List (List Nat) → List (Nat × Nat × String × List (List Nat))
  | [], _ => []
  | v :: rest, real =>
    let nm := (mapLookup names v.id).getD "unknown"
    if real ≠ [] ∧ v.size ≤ real.length then
      (v.id, v.size, nm, real.take v.size) :: show_stacks_go names rest (real.drop v.size)
    else
      (v.id, v.size, nm, []) :: show_stacks_go names rest real

/-- Embedding of `debugger::show_stacks` (`reverse = false` for the main
stack, `reverse = true` for the alt stack). -/
def show_stacks (d : StackData) (stack : List StackVariable) (real : List (List Nat))
    (reverse : Bool) : List (Nat × Nat × String × List (List Nat)) :=
  if reverse then show_stacks_go d.names stack.reverse real.reverse
  else show_stacks_go d.names stack real

/-- Embedding of `debugger::execute_step`: compile the fragments up to step
`k`, run the external executor on them, replay the model at
`history[k]`, and assemble the `StepResult`.  The `success` flag is set
exactly when `k` is the final step and the executor reports success. -/
def execute_step (runner : Frag → ExecOutcome) (t : StackTracker) (k : Nat) :
    Option StepResult :=
  let script := (t.script.take (k + 1)).flatten
  match t.history[k]? with
  | none => none
  | some height =>
    match t.data.new_from_redo_height height with
    | none => none
    | some step_data =>
      let r := runner script
      some { error := r.error.isSome
             error_msg := toString (repr r.error)
             success := decide (k = t.script.length - 1) && r.success
             last_opcode := r.lastOpcode
             stack := show_stacks step_data step_data.stack r.stackEntries false
             altstack := show_stacks step_data step_data.altstack r.altEntries true }

/-- Concrete tracker after `number 1` on a fresh tracker. -/
def witnessT1 : StackTracker := (StackTracker.numberT StackTracker.new 1).1

/-- Concrete tracker after `number 1; to_altstack`. -/
def witnessT2 : StackTracker := (runFrom witnessT1 [Verb.vtoalt]).getD StackTracker.new

/-! ## Replay correctness infrastructure -/

theorem applyRedo_append (d : StackData) (l1 l2 : List RedoOps) :
    d.applyRedo (l1 ++ l2) = (d.applyRedo l1).bind (fun d1 => d1.applyRedo l2) := by
  induction l1 generalizing d with
  | nil => simp [StackData.applyRedo]
  | cons e rest ih =>
    simp only [List.cons_append, StackData.applyRedo]
    cases d.applyEntry e <;> simp [ih]

theorem applyRedo_sub (d d' : StackData) (l1 l2 : List RedoOps)
    (h : d.applyRedo (l1 ++ l2) = some d') : ∃ d1, d.applyRedo l1 = some d1 := by
  rw [applyRedo_append] at h
  cases hd : d.applyRedo l1 with
  | none => rw [hd] at h; simp at h
  | some d1 => exact ⟨d1, rfl⟩

/-- Replay-correctness of a journaled model: replaying its full journal
from an empty journal-disabled model reproduces its content. -/
def ReplayOk (d : StackData) : Prop :=
  (StackData.new false).applyRedo d.redo_log = some (strip d)

theorem replayOk_new : ReplayOk (StackData.new true) := by
  simp [ReplayOk, StackData.new, StackData.applyRedo, strip]

theorem log_true (d : StackData) (e : RedoOps) (h : d.with_redo_log = true) :
    d.log e = d.redo_log ++ [e] := by
  simp [StackData.log, h]

theorem strip_with (d : StackData) : (strip d).with_redo_log = false := rfl

theorem applyRedo_single (d : StackData) (e : RedoOps) :
    d.applyRedo [e] = d.applyEntry e := by
  cases h : d.applyEntry e <;> simp [StackData.applyRedo, h]

theorem replayOk_extend (d d' : StackData) (e : RedoOps) (hd : ReplayOk d)
    (hlog : d'.redo_log = d.redo_log ++ [e])
    (happ : (strip d).applyEntry e = some (strip d')) : ReplayOk d' := by
  unfold ReplayOk
  rw [hlog, applyRedo_append, hd]
  simp [applyRedo_single, happ]

theorem replayOk_push_stack (d : StackData) (v : StackVariable)
    (h : d.with_redo_log = true) (hd : ReplayOk d) : ReplayOk (d.push_stack v) := by
  refine replayOk_extend d _ (.PushStack v) hd ?_ ?_
  · simp [StackData.push_stack, log_true _ _ h]
  · simp [StackData.applyEntry, StackData.push_stack, strip, StackData.log]

theorem replayOk_push_altstack (d : StackData) (v : StackVariable)
    (h : d.with_redo_log = true) (hd : ReplayOk d) : ReplayOk (d.push_altstack v) := by
  refine replayOk_extend d _ (.PushAltstack v) hd ?_ ?_
  · simp [StackData.push_altstack, log_true _ _ h]
  · simp [StackData.applyEntry, StackData.push_altstack, strip, StackData.log]

theorem replayOk_pop_stack (d d1 : StackData) (v : StackVariable)
    (h : d.with_redo_log = true) (hd : ReplayOk d)
    (hp : d.pop_stack = some (d1, v)) : ReplayOk d1 := by
  unfold StackData.pop_stack at hp
  cases hl : d.stack.getLast? with
  | none => rw [hl] at hp; simp at hp
  | some w =>
    rw [hl] at hp
    simp only [Option.some.injEq, Prod.mk.injEq] at hp
    obtain ⟨hp1, _⟩ := hp
    refine replayOk_extend d _ .PopStack hd ?_ ?_
    · rw [← hp1]; simp [log_true _ _ h]
    · simp [StackData.applyEntry, StackData.pop_stack, strip, hl, StackData.log, ← hp1]

theorem replayOk_pop_altstack (d d1 : StackData) (v : StackVariable)
    (h : d.with_redo_log = true) (hd : ReplayOk d)
    (hp : d.pop_altstack = some (d1, v)) : ReplayOk d1 := by
  unfold StackData.pop_altstack at hp
  cases hl : d.altstack.getLast? with
  | none => rw [hl] at hp; simp at hp
  | some w =>
    rw [hl] at hp
    simp only [Option.some.injEq, Prod.mk.injEq] at hp
    obtain ⟨hp1, _⟩ := hp
    refine replayOk_extend d _ .PopAltstack hd ?_ ?_
    · rw [← hp1]; simp [log_true _ _ h]
    · simp [StackData.applyEntry, StackData.pop_altstack, strip, hl, StackData.log, ← hp1]

theorem replayOk_set_name (d : StackData) (v : StackVariable) (name : String)
    (h : d.with_redo_log = true) (hd : ReplayOk d) : ReplayOk (d.set_name v name) := by
  refine replayOk_extend d _ (.SetName v name) hd ?_ ?_
  · simp [StackData.set_name, log_true _ _ h]
  · simp [StackData.applyEntry, StackData.set_name, strip, StackData.log]

theorem replayOk_remove_name (d : StackData) (v : StackVariable)
    (h : d.with_redo_log = true) (hd : ReplayOk d) : ReplayOk (d.remove_name v) := by
  refine replayOk_extend d _ (.RemoveName v) hd ?_ ?_
  · simp [StackData.remove_name, log_true _ _ h]
  · simp [StackData.applyEntry, StackData.remove_name, strip, StackData.log]

theorem replayOk_remove_var (d : StackData) (v : StackVariable)
    (h : d.with_redo_log = true) (hd : ReplayOk d) : ReplayOk (d.remove_var v) := by
  refine replayOk_extend d _ (.RemoveVar v) hd ?_ ?_
  · simp [StackData.remove_var, log_true _ _ h]
  · simp [StackData.applyEntry, StackData.remove_var, strip, StackData.log]

theorem replayOk_decrease_size (d : StackData) (v : StackVariable)
    (h : d.with_redo_log = true) (hd : ReplayOk d) : ReplayOk (d.decrease_size v) := by
  refine replayOk_extend d _ (.DecreaseSize v) hd ?_ ?_
  · simp [StackData.decrease_size, log_true _ _ h]
  · simp [StackData.applyEntry, StackData.decrease_size, strip, StackData.log]

theorem replayOk_increase_size (d d1 : StackData) (idx k : Nat)
    (h : d.with_redo_log = true) (hd : ReplayOk d)
    (hp : d.increase_size idx k = some d1) : ReplayOk d1 := by
  unfold StackData.increase_size at hp
  cases hl : d.stack[idx]? with
  | none => rw [hl] at hp; simp at hp
  | some x =>
    rw [hl] at hp
    simp only [Option.some.injEq] at hp
    refine replayOk_extend d _ (.IncreaseSize idx k) hd ?_ ?_
    · rw [← hp]; simp [log_true _ _ h]
    · simp [StackData.applyEntry, StackData.increase_size, strip, hl, StackData.log, ← hp]

/-! ## Total-size lemmas -/

theorem totalSize_go (acc : Nat) (l : List StackVariable) :
    List.foldl (fun a f => a + f.size) acc l = acc + (l.map (fun x => x.size)).sum := by
  induction l generalizing acc with
  | nil => simp
  | cons x l ih => simp [ih, Nat.add_assoc]

theorem totalSize_eq_sum (l : List StackVariable) :
    totalSize l = (l.map (fun x => x.size)).sum := by
  simp [totalSize, totalSize_go]

theorem totalSize_append (l1 l2 : List StackVariable) :
    totalSize (l1 ++ l2) = totalSize l1 + totalSize l2 := by
  simp [totalSize_eq_sum]

theorem totalSize_dropLast_le (l : List StackVariable) :
    totalSize l.dropLast ≤ totalSize l := by
  induction l with
  | nil => simp
  | cons x l ih =>
    cases l with
    | nil => simp [totalSize_eq_sum]
    | cons y l2 =>
      simp only [List.dropLast_cons₂, totalSize_eq_sum, List.map_cons, List.sum_cons] at ih ⊢
      omega

theorem totalSize_filter_le (l : List StackVariable) (p : StackVariable → Bool) :
    totalSize (l.filter p) ≤ totalSize l := by
  induction l with
  | nil => simp
  | cons x l ih =>
    by_cases hx : p x <;>
      simp only [List.filter_cons, hx, totalSize_eq_sum, List.map_cons, List.sum_cons,
        if_true, if_false, Bool.false_eq_true, ite_false, ite_true] at ih ⊢ <;> omega

theorem totalSize_decrease_le (l : List StackVariable) (i : Nat) :
    totalSize (l.map (fun x => if x.id = i then ⟨x.id, x.size - 1⟩ else x)) ≤ totalSize l := by
  induction l with
  | nil => simp
  | cons x l ih =>
    by_cases hx : x.id = i <;>
      simp only [List.map_cons, hx, totalSize_eq_sum, List.map_map, List.sum_cons,
        if_true, if_false, ite_true, ite_false, List.map_cons] at ih ⊢ <;> omega

theorem totalSize_set_add (l : List StackVariable) (i : Nat) (x : StackVariable) (k : Nat)
    (h : l[i]? = some x) :
    totalSize (l.set i ⟨x.id, x.size + k⟩) = totalSize l + k := by
  induction l generalizing i with
  | nil => simp at h
  | cons y l ih =>
    cases i with
    | zero =>
      simp only [List.getElem?_cons_zero, Option.some.injEq] at h
      subst h
      simp [totalSize_eq_sum]
      omega
    | succ j =>
      simp only [List.getElem?_cons_succ] at h
      simp only [List.set_cons_succ, totalSize_eq_sum, List.map_cons, List.sum_cons]
      have := ih j h
      simp only [totalSize_eq_sum] at this
      omega

theorem totalSize_cons (x : StackVariable) (l : List StackVariable) :
    totalSize (x :: l) = x.size + totalSize l := by
  simp [totalSize_eq_sum]

theorem totalSize_nil : totalSize [] = 0 := rfl

theorem totalSize_filter_remove (l : List StackVariable) (w : StackVariable) (h : w ∈ l) :
    totalSize (l.filter (fun x => x.id ≠ w.id)) + w.size ≤ totalSize l := by
  induction l with
  | nil => simp at h
  | cons x l ih =>
    rw [List.filter_cons, totalSize_cons]
    by_cases hx : x.id = w.id
    · have hdec : (decide (x.id ≠ w.id)) = false := by simp [hx]
      rw [hdec]
      simp only [Bool.false_eq_true, if_false]
      rcases List.mem_cons.mp h with heq | hmem
      · subst heq
        have := totalSize_filter_le l (fun x => x.id ≠ w.id)
        omega
      · have := ih hmem
        omega
    · have hdec : (decide (x.id ≠ w.id)) = true := by simp [hx]
      rw [hdec]
      simp only [if_true, totalSize_cons]
      have hmem : w ∈ l := by
        rcases List.mem_cons.mp h with heq | hmem
        · exact absurd (by rw [heq]) hx
        · exact hmem
      have := ih hmem
      omega

/-! ## Field lemmas for the data operations -/

theorem push_stack_stack (d : StackData) (v : StackVariable) :
    (d.push_stack v).stack = d.stack ++ [v] := rfl

theorem push_stack_flag (d : StackData) (v : StackVariable) :
    (d.push_stack v).with_redo_log = d.with_redo_log := rfl

theorem push_stack_log (d : StackData) (v : StackVariable) (h : d.with_redo_log = true) :
    (d.push_stack v).redo_log = d.redo_log ++ [.PushStack v] := by
  simp [StackData.push_stack, log_true _ _ h]

theorem push_altstack_stack (d : StackData) (v : StackVariable) :
    (d.push_altstack v).stack = d.stack := rfl

theorem push_altstack_flag (d : StackData) (v : StackVariable) :
    (d.push_altstack v).with_redo_log = d.with_redo_log := rfl

theorem push_altstack_log (d : StackData) (v : StackVariable) (h : d.with_redo_log = true) :
    (d.push_altstack v).redo_log = d.redo_log ++ [.PushAltstack v] := by
  simp [StackData.push_altstack, log_true _ _ h]

theorem set_name_stack (d : StackData) (v : StackVariable) (nm : String) :
    (d.set_name v nm).stack = d.stack := rfl

theorem set_name_flag (d : StackData) (v : StackVariable) (nm : String) :
    (d.set_name v nm).with_redo_log = d.with_redo_log := rfl

theorem set_name_log (d : StackData) (v : StackVariable) (nm : String)
    (h : d.with_redo_log = true) :
    (d.set_name v nm).redo_log = d.redo_log ++ [.SetName v nm] := by
  simp [StackData.set_name, log_true _ _ h]

theorem remove_name_stack (d : StackData) (v : StackVariable) :
    (d.remove_name v).stack = d.stack := rfl

theorem remove_name_flag (d : StackData) (v : StackVariable) :
    (d.remove_name v).with_redo_log = d.with_redo_log := rfl

theorem remove_name_log (d : StackData) (v : StackVariable) (h : d.with_redo_log = true) :
    (d.remove_name v).redo_log = d.redo_log ++ [.RemoveName v] := by
  simp [StackData.remove_name, log_true _ _ h]

theorem remove_var_stack (d : StackData) (v : StackVariable) :
    (d.remove_var v).stack = d.stack.filter (fun x => x.id ≠ v.id) := rfl

theorem remove_var_flag (d : StackData) (v : StackVariable) :
    (d.remove_var v).with_redo_log = d.with_redo_log := rfl

theorem remove_var_log (d : StackData) (v : StackVariable) (h : d.with_redo_log = true) :
    (d.remove_var v).redo_log = d.redo_log ++ [.RemoveVar v] := by
  simp [StackData.remove_var, log_true _ _ h]

theorem decrease_size_stack (d : StackData) (v : StackVariable) :
    (d.decrease_size v).stack
      = d.stack.map (fun x => if x.id = v.id then ⟨x.id, x.size - 1⟩ else x) := rfl

theorem decrease_size_flag (d : StackData) (v : StackVariable) :
    (d.decrease_size v).with_redo_log = d.with_redo_log := rfl

theorem decrease_size_log (d : StackData) (v : StackVariable) (h : d.with_redo_log = true) :
    (d.decrease_size v).redo_log = d.redo_log ++ [.DecreaseSize v] := by
  simp [StackData.decrease_size, log_true _ _ h]

theorem pop_stack_some (d : StackData) (h : d.stack ≠ []) :
    d.pop_stack = some ({ d with stack := d.stack.dropLast, redo_log := d.log .PopStack },
      d.stack.getLast h) := by
  unfold StackData.pop_stack
  rw [List.getLast?_eq_getLast d.stack h]

theorem pop_stack_cases (d d1 : StackData) (v : StackVariable)
    (h : d.pop_stack = some (d1, v)) :
    d1.stack = d.stack.dropLast ∧ d1.altstack = d.altstack ∧ d1.names = d.names ∧
      d1.redo_log = d.log .PopStack ∧ d1.with_redo_log = d.with_redo_log := by
  unfold StackData.pop_stack at h
  cases hl : d.stack.getLast? with
  | none => rw [hl] at h; simp at h
  | some w =>
    rw [hl] at h
    simp only [Option.some.injEq, Prod.mk.injEq] at h
    rw [← h.1]
    exact ⟨rfl, rfl, rfl, rfl, rfl⟩

theorem pop_altstack_cases (d d1 : StackData) (v : StackVariable)
    (h : d.pop_altstack = some (d1, v)) :
    d1.stack = d.stack ∧ d1.altstack = d.altstack.dropLast ∧ d1.names = d.names ∧
      d1.redo_log = d.log .PopAltstack ∧ d1.with_redo_log = d.with_redo_log := by
  unfold StackData.pop_altstack at h
  cases hl : d.altstack.getLast? with
  | none => rw [hl] at h; simp at h
  | some w =>
    rw [hl] at h
    simp only [Option.some.injEq, Prod.mk.injEq] at h
    rw [← h.1]
    exact ⟨rfl, rfl, rfl, rfl, rfl⟩

theorem increase_size_cases (d d1 : StackData) (idx k : Nat)
    (h : d.increase_size idx k = some d1) :
    ∃ x, d.stack[idx]? = some x ∧ d1.stack = d.stack.set idx ⟨x.id, x.size + k⟩ ∧
      d1.altstack = d.altstack ∧ d1.names = d.names ∧
      d1.redo_log = d.log (.IncreaseSize idx k) ∧ d1.with_redo_log = d.with_redo_log := by
  unfold StackData.increase_size at h
  cases hl : d.stack[idx]? with
  | none => rw [hl] at h; simp at h
  | some x =>
    rw [hl] at h
    simp only [Option.some.injEq] at h
    exact ⟨x, rfl, by rw [← h], by rw [← h], by rw [← h], by rw [← h], by rw [← h]⟩

/-! ## Field lemmas for the tracker building blocks -/

theorem push_scriptF_script (t : StackTracker) (s : Frag) :
    (t.push_scriptF s).script = t.script ++ [s] := rfl

theorem push_scriptF_history (t : StackTracker) (s : Frag) (h : t.with_history = true) :
    (t.push_scriptF s).history = t.history ++ [t.data.redo_log.length] := by
  simp [StackTracker.push_scriptF, h]

theorem push_scriptF_data (t : StackTracker) (s : Frag) :
    (t.push_scriptF s).data = t.data := rfl

theorem push_scriptF_max (t : StackTracker) (s : Frag) :
    (t.push_scriptF s).max_stack_size = t.max_stack_size := rfl

theorem push_scriptF_wh (t : StackTracker) (s : Frag) :
    (t.push_scriptF s).with_history = t.with_history := rfl

theorem pushVar_data (t : StackTracker) (v : StackVariable) :
    (t.pushVar v).data = t.data.push_stack v := rfl

theorem pushVar_script (t : StackTracker) (v : StackVariable) :
    (t.pushVar v).script = t.script := rfl

theorem pushVar_history (t : StackTracker) (v : StackVariable) :
    (t.pushVar v).history = t.history := rfl

theorem pushVar_wh (t : StackTracker) (v : StackVariable) :
    (t.pushVar v).with_history = t.with_history := rfl

theorem pushVar_max (t : StackTracker) (v : StackVariable) :
    (t.pushVar v).max_stack_size
      = Nat.max t.max_stack_size (totalSize (t.data.stack ++ [v])) := rfl

/-! ## Per-verb step properties

`VerbOk t t' c` bundles the frame facts established for one verb
invocation turning `t` into `t'` while appending `c` fragments: scripts,
history and journal grow by appending only, the history and the script grow
by exactly `c` entries, a newly appended history entry records the journal
length after the verb's mutations, replay correctness is preserved, and the
running maximum equals the old maximum joined with the new total size. -/

def VerbOk (t t' : StackTracker) (c : Nat) : Prop :=
  t'.with_history = true ∧
  t'.data.with_redo_log = true ∧
  t'.script.length = t.script.length + c ∧
  t'.history.length = t.history.length + c ∧
  (∃ e, t'.script = t.script ++ e) ∧
  (∃ e, t'.history = t.history ++ e) ∧
  (∃ e, t'.data.redo_log = t.data.redo_log ++ e) ∧
  (c = 1 → t'.history.getLast? = some t'.data.redo_log.length) ∧
  (ReplayOk t.data → ReplayOk t'.data) ∧
  (totalSize t.data.stack ≤ t.max_stack_size →
    t'.max_stack_size = Nat.max t.max_stack_size (totalSize t'.data.stack))

theorem verbOk_define (t : StackTracker) (size : Nat) (name : String)
    (hwh : t.with_history = true) (hwl : t.data.with_redo_log = true) :
    VerbOk t (t.defineT size name).1 0 := by
  unfold StackTracker.defineT
  refine ⟨hwh, ?_, by simp [pushVar_script], by simp [pushVar_history],
    ⟨[], by simp [pushVar_script]⟩, ⟨[], by simp [pushVar_history]⟩, ?_, by simp, ?_, ?_⟩
  · simp [set_name_flag, pushVar_data, push_stack_flag, hwl]
  · refine ⟨[.PushStack ⟨t.counter + 1, size⟩, .SetName ⟨t.counter + 1, size⟩ name], ?_⟩
    rw [set_name_log _ _ _ (by simp [pushVar_data, push_stack_flag, hwl]),
      pushVar_data, push_stack_log _ _ hwl]
    simp
  · intro hr
    exact replayOk_set_name _ _ _ (by simp [pushVar_data, push_stack_flag, hwl])
      (replayOk_push_stack _ _ hwl hr)
  · intro _
    simp [set_name_stack, pushVar_max, pushVar_data, push_stack_stack]

theorem verbOk_trans_push_script (t t0 : StackTracker) (s : Frag)
    (h : VerbOk t t0 0) : VerbOk t (t0.push_scriptF s) 1 := by
  obtain ⟨h1, h2, h3, h4, ⟨e1, he1⟩, ⟨e2, he2⟩, ⟨e3, he3⟩, _, h8, h9⟩ := h
  refine ⟨h1, h2, ?_, ?_, ⟨e1 ++ [s], by simp [push_scriptF_script, he1]⟩,
    ⟨e2 ++ [t0.data.redo_log.length], by simp [push_scriptF_history _ _ h1, he2]⟩,
    ⟨e3, by simp [push_scriptF_data, he3]⟩, ?_, ?_, ?_⟩
  · simp [push_scriptF_script, h3]
  · simp [push_scriptF_history _ _ h1, h4]
  · intro _
    simp [push_scriptF_history _ _ h1, push_scriptF_data]
  · intro hr
    simpa [push_scriptF_data] using h8 hr
  · intro hm
    simpa [push_scriptF_max, push_scriptF_data] using h9 hm

theorem verbOk_var (t : StackTracker) (size : Nat) (s : Frag) (name : String)
    (hwh : t.with_history = true) (hwl : t.data.with_redo_log = true) :
    VerbOk t (t.varT size s name).1 1 := by
  unfold StackTracker.varT
  exact verbOk_trans_push_script _ _ _ (verbOk_define t size name hwh hwl)

theorem verbOk_number (t : StackTracker) (n : Nat)
    (hwh : t.with_history = true) (hwl : t.data.with_redo_log = true) :
    VerbOk t (t.numberT n).1 1 :=
  verbOk_var t 1 [pushNum n] _ hwh hwl

theorem verbOk_rename (t : StackTracker) (v : StackVariable) (name : String)
    (hwh : t.with_history = true) (hwl : t.data.with_redo_log = true) :
    VerbOk t (t.renameT v name) 0 := by
  unfold StackTracker.renameT
  refine ⟨hwh, by simp [set_name_flag, hwl], by simp, by simp, ⟨[], by simp⟩, ⟨[], by simp⟩,
    ⟨[.SetName v name], by simp [set_name_log _ _ _ hwl]⟩, by simp, ?_, ?_⟩
  · exact fun hr => replayOk_set_name _ _ _ hwl hr
  · intro hm
    simp [set_name_stack]
    omega

theorem verbOk_breakpoint (t : StackTracker) (name : String)
    (hwh : t.with_history = true) (hwl : t.data.with_redo_log = true) :
    VerbOk t (t.set_breakpointT name) 1 := by
  have h0 : VerbOk t t 0 :=
    ⟨hwh, hwl, by simp, by simp, ⟨[], by simp⟩, ⟨[], by simp⟩, ⟨[], by simp⟩,
      by simp, fun hr => hr, fun hm => (Nat.max_eq_left hm).symm⟩
  have h1 := verbOk_trans_push_script t t [] h0
  unfold StackTracker.set_breakpointT
  obtain ⟨a1, a2, a3, a4, a5, a6, a7, a8, a9, a10⟩ := h1
  exact ⟨a1, a2, a3, a4, a5, a6, a7, a8, a9, a10⟩

theorem verbOk_debug (t : StackTracker)
    (hwh : t.with_history = true) (hwl : t.data.with_redo_log = true) :
    VerbOk t (t.debugT) 1 := by
  have h0 : VerbOk t t 0 :=
    ⟨hwh, hwl, by simp, by simp, ⟨[], by simp⟩, ⟨[], by simp⟩, ⟨[], by simp⟩,
      by simp, fun hr => hr, fun hm => (Nat.max_eq_left hm).symm⟩
  exact verbOk_trans_push_script t t [] h0

theorem totalSize_dropLast_getLast (l : List StackVariable) (h : l ≠ []) :
    totalSize l = totalSize l.dropLast + (l.getLast h).size := by
  conv_lhs => rw [← List.dropLast_append_getLast h]
  simp [totalSize_append, totalSize_cons, totalSize]

/-- Composition of two zero-fragment steps whose second step does not
shrink the total stack size below the intermediate value. -/
theorem verbOk_comp0_mono (t t1 t2 : StackTracker)
    (h1 : VerbOk t t1 0) (h2 : VerbOk t1 t2 0)
    (hts : totalSize t1.data.stack ≤ totalSize t2.data.stack) : VerbOk t t2 0 := by
  obtain ⟨a1, a2, a3, a4, ⟨e1, he1⟩, ⟨e2, he2⟩, ⟨e3, he3⟩, _, a9, a10⟩ := h1
  obtain ⟨b1, b2, b3, b4, ⟨f1, hf1⟩, ⟨f2, hf2⟩, ⟨f3, hf3⟩, _, b9, b10⟩ := h2
  refine ⟨b1, b2, by omega, by omega, ⟨e1 ++ f1, by simp [hf1, he1]⟩,
    ⟨e2 ++ f2, by simp [hf2, he2]⟩, ⟨e3 ++ f3, by simp [hf3, he3]⟩,
    by simp, fun hr => b9 (a9 hr), ?_⟩
  intro hm
  have hmax1 := a10 hm
  have hle1 : totalSize t1.data.stack ≤ t1.max_stack_size := by
    rw [hmax1]; exact Nat.le_max_right _ _
  rw [b10 hle1, hmax1]
  simp only [Nat.max_def]
  split_ifs <;> omega

/-- A zero-fragment step that only replaces the tracker's data with a
journal-extending, replay-preserving model whose total size does not
grow. -/
theorem verbOk_data_le (t : StackTracker) (d2 : StackData)
    (hwh : t.with_history = true)
    (hfl : d2.with_redo_log = true)
    (hlog : ∃ e, d2.redo_log = t.data.redo_log ++ e)
    (hrep : ReplayOk t.data → ReplayOk d2)
    (hts : totalSize d2.stack ≤ totalSize t.data.stack) :
    VerbOk t { t with data := d2 } 0 := by
  refine ⟨hwh, hfl, by simp, by simp, ⟨[], by simp⟩, ⟨[], by simp⟩, hlog, by simp, hrep, ?_⟩
  intro hm
  exact (Nat.max_eq_left (le_trans hts hm)).symm

/-- A zero-fragment step consisting of data mutations followed by a single
`pushVar` (the only stack mutation that updates the running maximum). -/
theorem verbOk_data_push (t : StackTracker) (d2 : StackData) (c2 : Nat) (nv : StackVariable)
    (hwh : t.with_history = true)
    (hfl : d2.with_redo_log = true)
    (hlog : ∃ e, d2.redo_log = t.data.redo_log ++ e)
    (hrep : ReplayOk t.data → ReplayOk d2) :
    VerbOk t (StackTracker.pushVar { t with data := d2, counter := c2 } nv) 0 := by
  obtain ⟨e, he⟩ := hlog
  refine ⟨by simp [pushVar_wh, hwh], by simp [pushVar_data, push_stack_flag, hfl],
    by simp [pushVar_script], by simp [pushVar_history],
    ⟨[], by simp [pushVar_script]⟩, ⟨[], by simp [pushVar_history]⟩,
    ⟨e ++ [.PushStack nv], ?_⟩, by simp, ?_, ?_⟩
  · rw [pushVar_data, push_stack_log _ _ hfl]
    simp [he]
  · intro hr
    exact replayOk_push_stack _ _ hfl (hrep hr)
  · intro _
    simp [pushVar_max, pushVar_data, push_stack_stack]

theorem verbOk_drop (t t' : StackTracker) (v : StackVariable)
    (hwh : t.with_history = true) (hwl : t.data.with_redo_log = true)
    (h : t.dropT v = some t') : VerbOk t t' 1 := by
  unfold StackTracker.dropT at h
  cases hl : t.data.stack.getLast? with
  | none => rw [hl] at h; simp at h
  | some last =>
    rw [hl] at h
    by_cases hid : last.id = v.id
    · simp only [hid, if_true] at h
      cases hp : t.data.pop_stack with
      | none => rw [hp] at h; simp at h
      | some r =>
        rw [hp] at h
        simp only [Option.some.injEq] at h
        obtain ⟨hc1, hc2, hc3, hc4, hc5⟩ := pop_stack_cases _ _ _ hp
        have h0 : VerbOk t { t with data := r.1.remove_name v } 0 := by
          refine verbOk_data_le t _ hwh (by simp [remove_name_flag, hc5, hwl]) ?_ ?_ ?_
          · exact ⟨[.PopStack, .RemoveName v], by
              rw [remove_name_log _ _ (by simp [hc5, hwl]), hc4, log_true _ _ hwl]
              simp⟩
          · exact fun hr =>
              replayOk_remove_name _ _ (by simp [hc5, hwl])
                (replayOk_pop_stack _ _ _ hwl hr hp)
          · rw [remove_name_stack, hc1]
            exact totalSize_dropLast_le _
        rw [← h]
        exact verbOk_trans_push_script _ _ _ h0
    · simp only [if_neg hid] at h
      simp at h

theorem verbOk_toalt (t : StackTracker) (r : StackTracker × StackVariable)
    (hwh : t.with_history = true) (hwl : t.data.with_redo_log = true)
    (h : t.to_altstackT = some r) : VerbOk t r.1 1 := by
  unfold StackTracker.to_altstackT at h
  cases hp : t.data.pop_stack with
  | none => rw [hp] at h; simp at h
  | some q =>
    rw [hp] at h
    simp only [Option.some.injEq] at h
    obtain ⟨hc1, hc2, hc3, hc4, hc5⟩ := pop_stack_cases _ _ _ hp
    have h0 : VerbOk t { t with data := q.1.push_altstack q.2 } 0 := by
      refine verbOk_data_le t _ hwh (by simp [push_altstack_flag, hc5, hwl]) ?_ ?_ ?_
      · exact ⟨[.PopStack, .PushAltstack q.2], by
          rw [push_altstack_log _ _ (by simp [hc5, hwl]), hc4, log_true _ _ hwl]
          simp⟩
      · exact fun hr =>
          replayOk_push_altstack _ _ (by simp [hc5, hwl])
            (replayOk_pop_stack _ _ _ hwl hr hp)
      · rw [push_altstack_stack, hc1]
        exact totalSize_dropLast_le _
    rw [← h]
    exact verbOk_trans_push_script _ _ _ h0

theorem verbOk_fromalt (t : StackTracker) (r : StackTracker × StackVariable)
    (hwh : t.with_history = true) (hwl : t.data.with_redo_log = true)
    (h : t.from_altstackT = some r) : VerbOk t r.1 1 := by
  unfold StackTracker.from_altstackT at h
  cases hp : t.data.pop_altstack with
  | none => rw [hp] at h; simp at h
  | some q =>
    rw [hp] at h
    simp only [Option.some.injEq] at h
    obtain ⟨hc1, hc2, hc3, hc4, hc5⟩ := pop_altstack_cases _ _ _ hp
    have h0 : VerbOk t (StackTracker.pushVar { t with data := q.1, counter := t.counter } q.2) 0 := by
      refine verbOk_data_push t _ _ _ hwh (by simp [hc5, hwl]) ?_ ?_
      · exact ⟨[.PopAltstack], by rw [hc4, log_true _ _ hwl]⟩
      · exact fun hr => replayOk_pop_altstack _ _ _ hwl hr hp
    rw [← h]
    have : ({ t with data := q.1, counter := t.counter } : StackTracker)
        = { t with data := q.1 } := rfl
    rw [this] at h0
    exact verbOk_trans_push_script _ _ _ h0

theorem pop_stack_val (d d1 : StackData) (v : StackVariable)
    (h : d.pop_stack = some (d1, v)) : d.stack.getLast? = some v := by
  unfold StackData.pop_stack at h
  cases hl : d.stack.getLast? with
  | none => rw [hl] at h; simp at h
  | some w =>
    rw [hl] at h
    simp only [Option.some.injEq, Prod.mk.injEq] at h
    rw [h.2]

theorem totalSize_getLast? (l : List StackVariable) (v : StackVariable)
    (h : l.getLast? = some v) : totalSize l = totalSize l.dropLast + v.size := by
  have hne : l ≠ [] := by
    cases l with
    | nil => simp at h
    | cons x xs => simp
  have hv : l.getLast hne = v := by
    rw [List.getLast?_eq_getLast l hne] at h
    exact Option.some.inj h
  rw [totalSize_dropLast_getLast l hne, hv]

theorem verbOk_id (t : StackTracker)
    (hwh : t.with_history = true) (hwl : t.data.with_redo_log = true) : VerbOk t t 0 :=
  ⟨hwh, hwl, by simp, by simp, ⟨[], by simp⟩, ⟨[], by simp⟩, ⟨[], by simp⟩,
    by simp, fun hr => hr, fun hm => (Nat.max_eq_left hm).symm⟩

/-- Variant of `verbOk_data_le` that also lets the verb advance the id
counter (the counter does not occur in any `VerbOk` conclusion). -/
theorem verbOk_data_le_c (t : StackTracker) (d2 : StackData) (c2 : Nat)
    (hwh : t.with_history = true)
    (hfl : d2.with_redo_log = true)
    (hlog : ∃ e, d2.redo_log = t.data.redo_log ++ e)
    (hrep : ReplayOk t.data → ReplayOk d2)
    (hts : totalSize d2.stack ≤ totalSize t.data.stack) :
    VerbOk t { t with data := d2, counter := c2 } 0 := by
  refine ⟨hwh, hfl, by simp, by simp, ⟨[], by simp⟩, ⟨[], by simp⟩, hlog, by simp, hrep, ?_⟩
  intro hm
  exact (Nat.max_eq_left (le_trans hts hm)).symm

theorem verbOk_move (t : StackTracker) (r : StackTracker × StackVariable) (v : StackVariable)
    (hwh : t.with_history = true) (hwl : t.data.with_redo_log = true)
    (h : t.move_var v = some r) :
    (t.get_offset v = some 0 ∧ r.1 = t) ∨
      ((t.get_offset v ≠ some 0) ∧ VerbOk t r.1 1) := by
  unfold StackTracker.move_var at h
  cases ho : t.get_offset v with
  | none => rw [ho] at h; simp at h
  | some off =>
    rw [ho] at h
    by_cases hz : off = 0
    · subst hz
      have h2 : some ((t, v) : StackTracker × StackVariable) = some r := by
        rw [← h]
        rfl
      exact Or.inl ⟨rfl, by rw [← Option.some.inj h2]⟩
    · have h2 : some
          ((StackTracker.pushVar { t with data := t.data.remove_var v } v).push_scriptF
            (move_from off v.size), v) = some r := by
        rw [← h]
        simp [hz]
      have h3 := Option.some.inj h2
      refine Or.inr ⟨by simp [hz], ?_⟩
      have h0 : VerbOk t (StackTracker.pushVar { t with data := t.data.remove_var v } v) 0 := by
        have := verbOk_data_push t (t.data.remove_var v) t.counter v hwh
          (by simp [remove_var_flag, hwl])
          ⟨[.RemoveVar v], by rw [remove_var_log _ _ hwl]⟩
          (fun hr => replayOk_remove_var _ _ hwl hr)
        exact this
      rw [← h3]
      exact verbOk_trans_push_script _ _ _ h0

theorem verbOk_copy (t : StackTracker) (r : StackTracker × StackVariable) (v : StackVariable)
    (hwh : t.with_history = true) (hwl : t.data.with_redo_log = true)
    (h : t.copy_var v = some r) : VerbOk t r.1 1 := by
  unfold StackTracker.copy_var at h
  cases ho : t.get_offset v with
  | none => rw [ho] at h; simp at h
  | some off =>
    rw [ho] at h
    cases hn : mapLookup t.data.names v.id with
    | none => rw [hn] at h; simp at h
    | some nm =>
      rw [hn] at h
      simp only [Option.some.injEq] at h
      have h1 : VerbOk t
          (StackTracker.pushVar { t with data := t.data, counter := t.counter + 1 }
            ⟨t.counter + 1, v.size⟩) 0 :=
        verbOk_data_push t t.data (t.counter + 1) _ hwh hwl ⟨[], by simp⟩ (fun hr => hr)
      set t1 := StackTracker.pushVar { t with data := t.data, counter := t.counter + 1 }
        ⟨t.counter + 1, v.size⟩ with ht1
      have h2 : VerbOk t1 (t1.renameT ⟨t.counter + 1, v.size⟩ ("copy(" ++ nm ++ ")")) 0 :=
        verbOk_rename t1 _ _ h1.1 h1.2.1
      have h12 : VerbOk t (t1.renameT ⟨t.counter + 1, v.size⟩ ("copy(" ++ nm ++ ")")) 0 :=
        verbOk_comp0_mono _ _ _ h1 h2 (by simp [StackTracker.renameT, set_name_stack])
      rw [← h]
      exact verbOk_trans_push_script _ _ _ h12

theorem verbOk_copysub (t : StackTracker) (r : StackTracker × StackVariable)
    (v : StackVariable) (n : Nat)
    (hwh : t.with_history = true) (hwl : t.data.with_redo_log = true)
    (h : t.copy_var_sub_n v n = some r) : VerbOk t r.1 1 := by
  unfold StackTracker.copy_var_sub_n at h
  cases ho : t.get_offset v with
  | none => rw [ho] at h; simp at h
  | some off =>
    rw [ho] at h
    simp only [Option.some.injEq] at h
    have h1 : VerbOk t
        (StackTracker.pushVar { t with data := t.data, counter := t.counter + 1 }
          ⟨t.counter + 1, 1⟩) 0 :=
      verbOk_data_push t t.data (t.counter + 1) _ hwh hwl ⟨[], by simp⟩ (fun hr => hr)
    rw [← h]
    exact verbOk_trans_push_script _ _ _ h1

theorem verbOk_movesub (t : StackTracker) (r : StackTracker × StackVariable × StackVariable)
    (v : StackVariable) (n : Nat)
    (hwh : t.with_history = true) (hwl : t.data.with_redo_log = true)
    (h : t.move_var_sub_n v n = some r) : VerbOk t r.1 1 := by
  unfold StackTracker.move_var_sub_n at h
  by_cases hlt : n < v.size
  · rw [if_pos hlt] at h
    cases ho : t.get_offset v with
    | none => rw [ho] at h; simp at h
    | some off =>
      rw [ho] at h
      simp only [Option.some.injEq] at h
      have hfl1 : (t.data.decrease_size ⟨v.id, v.size - 1⟩).with_redo_log = true := by
        simp [decrease_size_flag, hwl]
      have hd2 : ∀ d2, d2.with_redo_log = true → (∃ e, d2.redo_log = t.data.redo_log ++ e) →
          (ReplayOk t.data → ReplayOk d2) →
          VerbOk t (StackTracker.pushVar { t with data := d2, counter := t.counter + 1 }
            ⟨t.counter + 1, 1⟩) 0 := by
        intro d2 hf hl hr
        exact verbOk_data_push t d2 (t.counter + 1) _ hwh hf hl hr
      rw [← h]
      by_cases hz : v.size - 1 = 0
      · rw [if_pos hz]
        exact verbOk_trans_push_script _ _ _
          (hd2 ((t.data.decrease_size ⟨v.id, v.size - 1⟩).remove_var ⟨v.id, v.size - 1⟩)
            (by simp [remove_var_flag, hfl1])
            ⟨[.DecreaseSize ⟨v.id, v.size - 1⟩, .RemoveVar ⟨v.id, v.size - 1⟩], by
              rw [remove_var_log _ _ hfl1, decrease_size_log _ _ hwl]
              simp⟩
            (fun hrep => replayOk_remove_var _ _ hfl1 (replayOk_decrease_size _ _ hwl hrep)))
      · rw [if_neg hz]
        exact verbOk_trans_push_script _ _ _
          (hd2 (t.data.decrease_size ⟨v.id, v.size - 1⟩) hfl1
            ⟨[.DecreaseSize ⟨v.id, v.size - 1⟩], by rw [decrease_size_log _ _ hwl]⟩
            (fun hrep => replayOk_decrease_size _ _ hwl hrep))
  · rw [if_neg hlt] at h
    simp at h

theorem verbOk_join (t : StackTracker) (r : StackTracker × StackVariable) (v : StackVariable)
    (hwh : t.with_history = true) (hwl : t.data.with_redo_log = true)
    (h : t.joinT v = some r) : VerbOk t r.1 0 := by
  unfold StackTracker.joinT at h
  split at h
  · simp only [Option.some.injEq] at h
    rw [← h]
    exact verbOk_id t hwh hwl
  · next i hf =>
    split at h
    · simp at h
    · next next hnext =>
      split at h
      · simp at h
      · next d1 hinc =>
        simp only [Option.some.injEq] at h
        obtain ⟨x, hx, hst, _, _, hlog, hflag⟩ := increase_size_cases _ _ _ _ hinc
        rw [← h]
        refine verbOk_data_le t (d1.remove_var next) hwh
          (by simp [remove_var_flag, hflag, hwl]) ?_ ?_ ?_
        · exact ⟨[.IncreaseSize i next.size, .RemoveVar next], by
            rw [remove_var_log _ _ (by simp [hflag, hwl]), hlog, log_true _ _ hwl]
            simp⟩
        · exact fun hr => replayOk_remove_var _ _ (by simp [hflag, hwl])
            (replayOk_increase_size _ _ _ _ hwl hr hinc)
        · rw [remove_var_stack, hst]
          have hget : (t.data.stack.set i ⟨x.id, x.size + next.size⟩)[i + 1]?
              = t.data.stack[i + 1]? := by
            apply List.getElem?_set_ne
            omega
          have hmem : next ∈ t.data.stack.set i ⟨x.id, x.size + next.size⟩ :=
            List.getElem?_mem (by rw [hget, hnext])
          have h1 := totalSize_filter_remove _ next hmem
          have h2 := totalSize_set_add t.data.stack i x next.size hx
          omega

theorem verbOk_swap (t t' : StackTracker)
    (hwh : t.with_history = true) (hwl : t.data.with_redo_log = true)
    (h : t.op_swap = some t') : VerbOk t t' 1 := by
  unfold StackTracker.op_swap at h
  split at h
  · simp at h
  · next d1 x hp1 =>
    split at h
    · simp at h
    · next d2 y hp2 =>
      obtain ⟨hc1, _, _, hc4, hc5⟩ := pop_stack_cases _ _ _ hp1
      obtain ⟨hd1, _, _, hd4, hd5⟩ := pop_stack_cases _ _ _ hp2
      have hv1 := pop_stack_val _ _ _ hp1
      have hv2 := pop_stack_val _ _ _ hp2
      have hfl2 : d2.with_redo_log = true := by rw [hd5, hc5, hwl]
      have hfl3 : ((d2.push_stack x).push_stack y).with_redo_log = true := by
        simp [push_stack_flag, hfl2]
      have hce : StackTracker.custom_ex
          { t with data := (d2.push_stack x).push_stack y } [.op OP_SWAP] 0 [] 0
          = some (StackTracker.push_scriptF
              { t with data := (d2.push_stack x).push_stack y } [.op OP_SWAP], []) := by
        unfold StackTracker.custom_ex
        simp [StackTracker.popN, StackTracker.altPushN]
      simp only [hce, Option.some.injEq] at h
      have h0 : VerbOk t { t with data := (d2.push_stack x).push_stack y } 0 := by
        refine verbOk_data_le t _ hwh hfl3 ?_ ?_ ?_
        · refine ⟨[.PopStack, .PopStack, .PushStack x, .PushStack y], ?_⟩
          rw [push_stack_log _ _ (by simp [push_stack_flag, hfl2]),
            push_stack_log _ _ hfl2, hd4, log_true _ _ (by rw [hc5, hwl]), hc4,
            log_true _ _ hwl]
          simp
        · exact fun hr =>
            replayOk_push_stack _ _ (by simp [push_stack_flag, hfl2])
              (replayOk_push_stack _ _ hfl2
                (replayOk_pop_stack _ _ _ (by rw [hc5, hwl])
                  (replayOk_pop_stack _ _ _ hwl hr hp1) hp2))
        · rw [push_stack_stack, push_stack_stack]
          have e1 := totalSize_getLast? _ _ hv1
          have e2 := totalSize_getLast? _ _ hv2
          rw [hc1] at hv2 e2
          rw [totalSize_append, totalSize_append, totalSize_cons, totalSize_cons, hd1, hc1]
          simp only [totalSize_nil]
          omega
      rw [← h]
      exact verbOk_trans_push_script _ _ _ h0

theorem defineT_stack (t : StackTracker) (sz : Nat) (nm : String) :
    (t.defineT sz nm).1.data.stack = t.data.stack ++ [⟨t.counter + 1, sz⟩] := by
  simp [StackTracker.defineT, set_name_stack, pushVar_data, push_stack_stack]

theorem defineAll_cons (t : StackTracker) (sz : Nat) (nm : String)
    (rest : List (Nat × String)) :
    StackTracker.defineAll t ((sz, nm) :: rest)
      = ((StackTracker.defineAll (t.defineT sz nm).1 rest).1,
         (t.defineT sz nm).2 :: (StackTracker.defineAll (t.defineT sz nm).1 rest).2) := by
  simp [StackTracker.defineAll]

theorem defineAll_total_mono (outs : List (Nat × String)) : ∀ (t : StackTracker),
    totalSize t.data.stack ≤ totalSize (StackTracker.defineAll t outs).1.data.stack := by
  induction outs with
  | nil => intro t; simp [StackTracker.defineAll]
  | cons p rest ih =>
    intro t
    obtain ⟨sz, nm⟩ := p
    rw [defineAll_cons]
    refine le_trans ?_ (ih (t.defineT sz nm).1)
    rw [defineT_stack, totalSize_append]
    omega

theorem verbOk_defineAll (outs : List (Nat × String)) : ∀ (t : StackTracker),
    t.with_history = true → t.data.with_redo_log = true →
    VerbOk t (StackTracker.defineAll t outs).1 0 := by
  induction outs with
  | nil => intro t hwh hwl; simpa [StackTracker.defineAll] using verbOk_id t hwh hwl
  | cons p rest ih =>
    intro t hwh hwl
    obtain ⟨sz, nm⟩ := p
    have h1 := verbOk_define t sz nm hwh hwl
    have h2 := ih (t.defineT sz nm).1 h1.1 h1.2.1
    have hcomp := verbOk_comp0_mono _ _ _ h1 h2 (defineAll_total_mono rest _)
    rw [defineAll_cons]
    exact hcomp

theorem altPushN_stack (k : Nat) : ∀ (t : StackTracker),
    (StackTracker.altPushN t k).data.stack = t.data.stack := by
  induction k with
  | zero => intro t; simp [StackTracker.altPushN]
  | succ k ih =>
    intro t
    unfold StackTracker.altPushN
    rw [ih]
    simp [push_altstack_stack]

theorem verbOk_altPushN (k : Nat) : ∀ (t : StackTracker),
    t.with_history = true → t.data.with_redo_log = true →
    VerbOk t (StackTracker.altPushN t k) 0 := by
  induction k with
  | zero => intro t hwh hwl; simpa [StackTracker.altPushN] using verbOk_id t hwh hwl
  | succ k ih =>
    intro t hwh hwl
    have h1 : VerbOk t { t with data := t.data.push_altstack ⟨t.counter + 1, 1⟩
                                counter := t.counter + 1 } 0 := by
      refine verbOk_data_le_c t _ _ hwh (by simp [push_altstack_flag, hwl]) ?_ ?_ ?_
      · exact ⟨[.PushAltstack ⟨t.counter + 1, 1⟩], by rw [push_altstack_log _ _ hwl]⟩
      · exact fun hr => replayOk_push_altstack _ _ hwl hr
      · rw [push_altstack_stack]
    have h2 := ih _ h1.1 h1.2.1
    have hcomp := verbOk_comp0_mono _ _ _ h1 h2 (by rw [altPushN_stack])
    unfold StackTracker.altPushN
    exact hcomp

theorem popN_props (n : Nat) : ∀ (d d' : StackData), d.with_redo_log = true →
    StackTracker.popN d n = some d' →
    d'.with_redo_log = true ∧ (∃ e, d'.redo_log = d.redo_log ++ e) ∧
      (ReplayOk d → ReplayOk d') ∧ totalSize d'.stack ≤ totalSize d.stack := by
  induction n with
  | zero =>
    intro d d' hf h
    simp only [StackTracker.popN, Option.some.injEq] at h
    rw [← h]
    exact ⟨hf, ⟨[], by simp⟩, fun hr => hr, le_refl _⟩
  | succ n ih =>
    intro d d' hf h
    unfold StackTracker.popN at h
    split at h
    · simp at h
    · next d1 x hp =>
      obtain ⟨hc1, _, _, hc4, hc5⟩ := pop_stack_cases _ _ _ hp
      obtain ⟨i1, ⟨e, he⟩, i3, i4⟩ := ih d1 d' (by rw [hc5, hf]) h
      refine ⟨i1, ⟨RedoOps.PopStack :: e, ?_⟩, ?_, ?_⟩
      · rw [he, hc4, log_true _ _ hf]
        simp
      · exact fun hr => i3 (replayOk_pop_stack _ _ _ hf hr hp)
      · refine le_trans i4 ?_
        rw [hc1]
        exact totalSize_dropLast_le _

theorem verbOk_custom (t : StackTracker) (r : StackTracker × List StackVariable)
    (s : Frag) (consumes : Nat) (outs : List (Nat × String)) (toAlt : Nat)
    (hwh : t.with_history = true) (hwl : t.data.with_redo_log = true)
    (h : t.custom_ex s consumes outs toAlt = some r) : VerbOk t r.1 1 := by
  unfold StackTracker.custom_ex at h
  split at h
  · simp at h
  · next d hpop =>
    obtain ⟨p1, p2, p3, p4⟩ := popN_props consumes t.data d hwl hpop
    have h1 : VerbOk t { t with data := d } 0 := verbOk_data_le t d hwh p1 p2 p3 p4
    by_cases houts : outs.length > 0
    · rw [if_pos houts] at h
      simp only [Option.some.injEq] at h
      have h2 := verbOk_defineAll outs { t with data := d } h1.1 h1.2.1
      have h12 := verbOk_comp0_mono _ _ _ h1 h2 (defineAll_total_mono outs _)
      rw [← h]
      exact verbOk_trans_push_script _ _ _ h12
    · rw [if_neg houts] at h
      simp only [Option.some.injEq] at h
      have h2 := verbOk_altPushN toAlt { t with data := d } h1.1 h1.2.1
      have h12 := verbOk_comp0_mono _ _ _ h1 h2 (by rw [altPushN_stack])
      rw [← h]
      exact verbOk_trans_push_script _ _ _ h12

/-- Master per-verb lemma: every successful verb invocation satisfies the
`VerbOk` frame properties with its fragment count. -/
theorem runVerb_ok (t t' : StackTracker) (vb : Verb)
    (hwh : t.with_history = true) (hwl : t.data.with_redo_log = true)
    (h : runVerb t vb = some t') : VerbOk t t' (fragCount t vb) := by
  cases vb with
  | vdefine size name =>
    simp only [runVerb, Option.some.injEq] at h
    rw [← h]
    exact verbOk_define t size name hwh hwl
  | vvar size s name =>
    simp only [runVerb, Option.some.injEq] at h
    rw [← h]
    exact verbOk_var t size s name hwh hwl
  | vnumber n =>
    simp only [runVerb, Option.some.injEq] at h
    rw [← h]
    exact verbOk_number t n hwh hwl
  | vrename v name =>
    simp only [runVerb, Option.some.injEq] at h
    rw [← h]
    exact verbOk_rename t v name hwh hwl
  | vdrop v =>
    simp only [runVerb] at h
    exact verbOk_drop t t' v hwh hwl h
  | vtoalt =>
    simp only [runVerb, Option.map_eq_some'] at h
    obtain ⟨r, hr, hq⟩ := h
    rw [← hq]
    exact verbOk_toalt t r hwh hwl hr
  | vfromalt =>
    simp only [runVerb, Option.map_eq_some'] at h
    obtain ⟨r, hr, hq⟩ := h
    rw [← hq]
    exact verbOk_fromalt t r hwh hwl hr
  | vmove v =>
    simp only [runVerb, Option.map_eq_some'] at h
    obtain ⟨r, hr, hq⟩ := h
    rcases verbOk_move t r v hwh hwl hr with ⟨hoff, heq⟩ | ⟨hoff, hok⟩
    · have hc : fragCount t (Verb.vmove v) = 0 := by
        simp [fragCount, hoff]
      rw [hc, ← hq, heq]
      exact verbOk_id t hwh hwl
    · have hc : fragCount t (Verb.vmove v) = 1 := by
        cases ho : t.get_offset v with
        | none => simp [fragCount, ho]
        | some k =>
          cases k with
          | zero => exact absurd ho hoff
          | succ m => simp [fragCount, ho]
      rw [hc, ← hq]
      exact hok
  | vcopy v =>
    simp only [runVerb, Option.map_eq_some'] at h
    obtain ⟨r, hr, hq⟩ := h
    rw [← hq]
    exact verbOk_copy t r v hwh hwl hr
  | vmovesub v n =>
    simp only [runVerb, Option.map_eq_some'] at h
    obtain ⟨r, hr, hq⟩ := h
    rw [← hq]
    exact verbOk_movesub t r v n hwh hwl hr
  | vcopysub v n =>
    simp only [runVerb, Option.map_eq_some'] at h
    obtain ⟨r, hr, hq⟩ := h
    rw [← hq]
    exact verbOk_copysub t r v n hwh hwl hr
  | vjoin v =>
    simp only [runVerb, Option.map_eq_some'] at h
    obtain ⟨r, hr, hq⟩ := h
    rw [← hq]
    exact verbOk_join t r v hwh hwl hr
  | vcustom s consumes outs toAlt =>
    simp only [runVerb, Option.map_eq_some'] at h
    obtain ⟨r, hr, hq⟩ := h
    rw [← hq]
    exact verbOk_custom t r s consumes outs toAlt hwh hwl hr
  | vswap =>
    simp only [runVerb] at h
    exact verbOk_swap t t' hwh hwl h
  | vbreakpoint name =>
    simp only [runVerb, Option.some.injEq] at h
    rw [← h]
    exact verbOk_breakpoint t name hwh hwl
  | vdebug =>
    simp only [runVerb, Option.some.injEq] at h
    rw [← h]
    exact verbOk_debug t hwh hwl

/-! ## Program-level invariants -/

/-- Invariant of every tracker reachable from `StackTracker.new`. -/
def TrackerInv (t : StackTracker) : Prop :=
  t.with_history = true ∧
  t.data.with_redo_log = true ∧
  t.script.length = t.history.length ∧
  ReplayOk t.data ∧
  totalSize t.data.stack ≤ t.max_stack_size ∧
  (∀ x ∈ t.history, x ≤ t.data.redo_log.length)

theorem inv_new : TrackerInv StackTracker.new := by
  refine ⟨rfl, rfl, rfl, replayOk_new, ?_, ?_⟩
  · simp [StackTracker.new, StackData.new, totalSize]
  · intro x hx
    simp [StackTracker.new] at hx

theorem fragCount_le_one (t : StackTracker) (vb : Verb) : fragCount t vb ≤ 1 := by
  cases vb with
  | vmove v =>
    unfold fragCount
    cases ho : t.get_offset v with
    | none => simp [ho]
    | some k => cases k <;> simp [ho]
  | _ => first
      | exact le_refl 1
      | exact Nat.zero_le 1

theorem inv_step (t t' : StackTracker) (vb : Verb)
    (hi : TrackerInv t) (h : runVerb t vb = some t') : TrackerInv t' := by
  obtain ⟨hwh, hwl, hal, hrep, hmx, hhb⟩ := hi
  obtain ⟨a1, a2, a3, a4, ⟨e1, he1⟩, ⟨e2, he2⟩, ⟨e3, he3⟩, a8, a9, a10⟩ :=
    runVerb_ok t t' vb hwh hwl h
  refine ⟨a1, a2, by omega, a9 hrep, ?_, ?_⟩
  · rw [a10 hmx]
    exact Nat.le_max_right _ _
  · intro x hx
    have hlen2 : e2.length = fragCount t vb := by
      have := congrArg List.length he2
      simp at this
      omega
    rw [he2] at hx
    rcases List.mem_append.mp hx with hold | hnew
    · refine le_trans (hhb x hold) ?_
      rw [he3]
      simp
    · cases hc : fragCount t vb with
      | zero =>
        rw [hc] at hlen2
        rw [List.length_eq_zero.mp hlen2] at hnew
        simp at hnew
      | succ m =>
        have hle := fragCount_le_one t vb
        have hm1 : fragCount t vb = 1 := by omega
        rw [hm1] at hlen2
        obtain ⟨a, ha⟩ := List.length_eq_one.mp hlen2
        rw [ha] at hnew
        simp at hnew
        have hlast := a8 hm1
        rw [he2, ha] at hlast
        simp at hlast
        omega

theorem runFrom_inv (p : List Verb) : ∀ (t t' : StackTracker),
    TrackerInv t → runFrom t p = some t' → TrackerInv t' := by
  induction p with
  | nil =>
    intro t t' hi h
    simp only [runFrom, Option.some.injEq] at h
    rw [← h]
    exact hi
  | cons v vs ih =>
    intro t t' hi h
    unfold runFrom at h
    split at h
    · simp at h
    · next t1 h1 => exact ih t1 t' (inv_step t t1 v hi h1) h

/-- Every run only appends to the script, the history and the journal, and
preserves replay correctness. -/
theorem runFrom_ext (p : List Verb) : ∀ (t t' : StackTracker), TrackerInv t →
    runFrom t p = some t' →
    (∃ e, t'.script = t.script ++ e) ∧ (∃ e, t'.history = t.history ++ e) ∧
      (∃ e, t'.data.redo_log = t.data.redo_log ++ e) := by
  induction p with
  | nil =>
    intro t t' _ h
    simp only [runFrom, Option.some.injEq] at h
    rw [← h]
    exact ⟨⟨[], by simp⟩, ⟨[], by simp⟩, ⟨[], by simp⟩⟩
  | cons v vs ih =>
    intro t t' hi h
    unfold runFrom at h
    split at h
    · simp at h
    · next t1 h1 =>
      obtain ⟨_, _, _, _, ⟨e1, he1⟩, ⟨e2, he2⟩, ⟨e3, he3⟩, _, _, _⟩ :=
        runVerb_ok t t1 v hi.1 hi.2.1 h1
      obtain ⟨⟨f1, hf1⟩, ⟨f2, hf2⟩, ⟨f3, hf3⟩⟩ := ih t1 t' (inv_step t t1 v hi h1) h
      exact ⟨⟨e1 ++ f1, by rw [hf1, he1]; simp⟩, ⟨e2 ++ f2, by rw [hf2, he2]; simp⟩,
        ⟨e3 ++ f3, by rw [hf3, he3]; simp⟩⟩

theorem runFrom_append (p q : List Verb) : ∀ (t : StackTracker),
    runFrom t (p ++ q) = (runFrom t p).bind (fun t1 => runFrom t1 q) := by
  induction p with
  | nil => intro t; simp [runFrom]
  | cons v vs ih =>
    intro t
    cases h : runVerb t v with
    | none => simp [runFrom, h]
    | some t1 =>
      show runFrom t (v :: (vs ++ q)) = _
      simp only [runFrom, h]
      exact ih t1

/-! ## Replay height lemmas -/

theorem nfrh_full (d : StackData) (h : ReplayOk d) :
    d.new_from_redo_height d.redo_log.length = some (strip d) := by
  unfold StackData.new_from_redo_height
  rw [if_pos (le_refl _), List.take_length]
  exact h

theorem nfrh_stable (d d2 : StackData) (e : List RedoOps)
    (hlog : d2.redo_log = d.redo_log ++ e) (k : Nat) (hk : k ≤ d.redo_log.length) :
    d2.new_from_redo_height k = d.new_from_redo_height k := by
  unfold StackData.new_from_redo_height
  rw [if_pos hk, if_pos (by rw [hlog]; simp; omega), hlog,
    List.take_append_of_le_length hk]

theorem nfrh_some_of_replayOk (d : StackData) (k : Nat) (hk : k ≤ d.redo_log.length)
    (h : ReplayOk d) : ∃ sd, d.new_from_redo_height k = some sd := by
  unfold StackData.new_from_redo_height
  rw [if_pos hk]
  unfold ReplayOk at h
  rw [← List.take_append_drop k d.redo_log] at h
  obtain ⟨d1, hd1⟩ := applyRedo_sub _ _ _ _ h
  exact ⟨d1, hd1⟩

/-! ## Trace and running maximum -/

theorem trace_head (p : List Verb) (t : StackTracker) (sts : List StackTracker)
    (h : trace t p = some sts) : ∃ rest, sts = t :: rest := by
  cases p with
  | nil =>
    simp only [trace, Option.some.injEq] at h
    exact ⟨[], h.symm⟩
  | cons v vs =>
    unfold trace at h
    split at h
    · simp at h
    · next t1 h1 =>
      cases htr : trace t1 vs with
      | none => rw [htr] at h; simp at h
      | some l =>
        rw [htr] at h
        simp only [Option.map_some', Option.some.injEq] at h
        exact ⟨l, h.symm⟩

theorem trace_max (p : List Verb) : ∀ (t : StackTracker) (sts : List StackTracker),
    t.with_history = true → t.data.with_redo_log = true →
    totalSize t.data.stack ≤ t.max_stack_size →
    trace t p = some sts →
    ∃ tf, sts.getLast? = some tf ∧ runFrom t p = some tf ∧
      tf.max_stack_size
        = (sts.map (fun s => totalSize s.data.stack)).foldl Nat.max t.max_stack_size := by
  induction p with
  | nil =>
    intro t sts hwh hwl hm h
    simp only [trace, Option.some.injEq] at h
    refine ⟨t, by rw [← h]; rfl, rfl, ?_⟩
    rw [← h]
    simp [Nat.max_eq_left hm]
  | cons v vs ih =>
    intro t sts hwh hwl hm h
    unfold trace at h
    split at h
    · simp at h
    · next t1 h1 =>
      cases htr : trace t1 vs with
      | none => rw [htr] at h; simp at h
      | some l =>
        rw [htr] at h
        simp only [Option.map_some', Option.some.injEq] at h
        subst h
        obtain ⟨a1, a2, _, _, _, _, _, _, _, a10⟩ := runVerb_ok t t1 v hwh hwl h1
        have hmax1 := a10 hm
        have hm1 : totalSize t1.data.stack ≤ t1.max_stack_size := by
          rw [hmax1]; exact Nat.le_max_right _ _
        obtain ⟨tf, htf1, htf2, htf3⟩ := ih t1 l a1 a2 hm1 htr
        obtain ⟨rest, hrest⟩ := trace_head vs t1 l htr
        refine ⟨tf, ?_, ?_, ?_⟩
        · rw [hrest, List.getLast?_cons_cons]
          rw [hrest] at htf1
          exact htf1
        · show runFrom t (v :: vs) = some tf
          simp only [runFrom, h1]
          exact htf2
        · simp only [List.map_cons, List.foldl_cons]
          have hb : Nat.max t.max_stack_size (totalSize t.data.stack) = t.max_stack_size :=
            Nat.max_eq_left hm
          rw [hb, htf3, hrest]
          simp only [List.map_cons, List.foldl_cons]
          have hmm : Nat.max t1.max_stack_size (totalSize t1.data.stack)
              = Nat.max t.max_stack_size (totalSize t1.data.stack) := by
            rw [hmax1]
            simp [Nat.max_def]
            split_ifs <;> omega
          rw [hmm]

/-! ## Structure of the `replace` rewrite -/

theorem overwriteFrom_eq (xs : List Instruction) : ∀ (l : List Instruction) (i : Nat),
    i + xs.length ≤ l.length →
    overwriteFrom l i xs = l.take i ++ xs ++ l.drop (i + xs.length) := by
  induction xs with
  | nil =>
    intro l i h
    simp [overwriteFrom]
  | cons x xs ih =>
    intro l i h
    simp only [List.length_cons] at h
    have hi : i < l.length := by omega
    unfold overwriteFrom
    rw [ih (l.set i x) (i + 1) (by simp; omega)]
    have hset : l.set i x = l.take i ++ x :: l.drop (i + 1) := by
      rw [List.set_eq_take_append_cons_drop, if_pos hi]
    rw [hset]
    have htk : (l.take i ++ x :: l.drop (i + 1)).take (i + 1) = l.take i ++ [x] := by
      rw [List.take_append_eq_append_take]
      have h1 : (l.take i).length = i := List.length_take_of_le (le_of_lt hi)
      rw [h1]
      simp
    have hdr : (l.take i ++ x :: l.drop (i + 1)).drop (i + 1 + xs.length)
        = l.drop (i + 1 + xs.length) := by
      rw [List.drop_append_eq_append_drop]
      have h1 : (l.take i).length = i := List.length_take_of_le (le_of_lt hi)
      rw [List.drop_eq_nil_of_le (by rw [h1]; omega)]
      rw [h1]
      have h2 : i + 1 + xs.length - i = xs.length + 1 := by omega
      rw [h2]
      rw [List.drop_succ_cons, List.drop_drop, List.nil_append]
    rw [htk, hdr]
    have h3 : i + 1 + xs.length = i + (xs.length + 1) := by omega
    rw [h3]
    simp

theorem removeRange_overwrite (l : List Instruction) (i : Nat) (ops : List Instruction)
    (dr : Nat) (hlen : i + 1 + ops.length + dr ≤ l.length) :
    removeRange (overwriteFrom l (i + 1) ops) (i + ops.length + 1) dr
      = l.take (i + 1) ++ ops ++ l.drop (i + 1 + ops.length + dr) := by
  rw [overwriteFrom_eq ops l (i + 1) (by omega)]
  unfold removeRange
  have hA : (l.take (i + 1)).length = i + 1 := List.length_take_of_le (by omega)
  have htk : ((l.take (i + 1) ++ ops) ++ l.drop (i + 1 + ops.length)).take (i + ops.length + 1)
      = l.take (i + 1) ++ ops := by
    rw [List.take_left']
    simp [hA]
    omega
  have hdr : ((l.take (i + 1) ++ ops) ++ l.drop (i + 1 + ops.length)).drop
      (i + ops.length + 1 + dr) = l.drop (i + 1 + ops.length + dr) := by
    rw [List.drop_append_eq_append_drop]
    have hAB : (l.take (i + 1) ++ ops).length = i + 1 + ops.length := by simp [hA]
    rw [List.drop_eq_nil_of_le (by rw [hAB]; omega), hAB, List.nil_append, List.drop_drop]
    congr 1
    omega
  rw [htk, hdr]

theorem replace_eq (instrs : List Instruction) (i count : Nat)
    (h3 : 3 ≤ count) (h15 : count ≤ 15) (hlen : i + count < instrs.length) :
    replace instrs i count
      = (instrs.take (i + 1) ++ (dupTable count).map dupOp ++ instrs.drop (i + count + 1),
         (dupTable count).length, count - (dupTable count).length) := by
  have hne : dupTable count ≠ [] := by interval_cases count <;> simp [dupTable]
  have hle : (dupTable count).length ≤ count := by interval_cases count <;> simp [dupTable]
  obtain ⟨op0, rest, hd⟩ := List.exists_cons_of_ne_nil hne
  unfold replace
  rw [hd]
  simp only []
  have hml : ((op0 :: rest).map dupOp).length = (op0 :: rest).length := by simp
  have hlen2 : i + 1 + ((op0 :: rest).map dupOp).length + (count - (op0 :: rest).length)
      ≤ instrs.length := by
    rw [hml]
    rw [hd] at hle
    omega
  have hrr := removeRange_overwrite instrs i ((op0 :: rest).map dupOp)
    (count - (op0 :: rest).length) hlen2
  rw [hml] at hrr
  rw [hrr]
  have harith : i + 1 + (op0 :: rest).length + (count - (op0 :: rest).length)
      = i + count + 1 := by
    rw [hd] at hle
    omega
  rw [harith]

/-- Claim C3 (amended).  In the optimiser's digit-run rule, the dup table
is keyed by the number `count` of consecutive equal successors of the run
head (`count_ahead`, i.e. run length minus one), not by the run length:
for `count` in [3..15], `replace` rewrites positions `i+1 .. i+count` into
the table's dup sequence, so a run of exactly six identical digit pushes
(`count = 5`, table entry `[1,2,2]`) optimises to
`push 0; OP_DUP; OP_2DUP; OP_2DUP`, while seven pushes (`count = 6`, table
entry `[1,2,3]`) give `push 0; OP_DUP; OP_2DUP; OP_3DUP`. -/
theorem claim3_amended : ∀ (instrs : List Instruction) (i count : Nat),
    3 ≤ count → count ≤ 15 → i + count < instrs.length →
    ((replace instrs i count).1
        = instrs.take (i + 1) ++ (dupTable count).map dupOp ++ instrs.drop (i + count + 1) ∧
      (replace instrs i count).2.1 = (dupTable count).length ∧
      (replace instrs i count).2.2 = count - (dupTable count).length) ∧
    optimize (List.replicate 6 (pushNum 0))
      = some [pushNum 0, .op OP_DUP, .op OP_2DUP, .op OP_2DUP] ∧
    optimize (List.replicate 7 (pushNum 0))
      = some [pushNum 0, .op OP_DUP, .op OP_2DUP, .op OP_3DUP] := by
  intro instrs i count h3 h15 hlen
  refine ⟨?_, by decide, by decide⟩
  rw [replace_eq instrs i count h3 h15 hlen]
  exact ⟨rfl, rfl, rfl⟩

/-- Witness for `claim3_amended` at a concrete input: a run of four `OP_0`
pushes with one trailing instruction, rewritten at position 0 with
`count = 3`. -/
theorem claim3_amended_witness :
    (3 ≤ 3 ∧ 3 ≤ 15 ∧ 0 + 3 < (List.replicate 5 (pushNum 0)).length) ∧
    (replace (List.replicate 5 (pushNum 0)) 0 3).1
      = (List.replicate 5 (pushNum 0)).take 1 ++ (dupTable 3).map dupOp
          ++ (List.replicate 5 (pushNum 0)).drop 4 :=
  ⟨⟨by decide, by decide, by decide⟩,
    ((claim3_amended (List.replicate 5 (pushNum 0)) 0 3 (by decide) (by decide)
      (by decide)).1).1⟩

/-- Counterexample to claim C3 as stated: six consecutive pushes of 0 do
not optimise to `push 0; OP_DUP; OP_2DUP; OP_3DUP`; the actual result is
`push 0; OP_DUP; OP_2DUP; OP_2DUP`. -/
theorem claim3_counterexample :
    optimize (List.replicate 6 (pushNum 0))
      = some [pushNum 0, .op OP_DUP, .op OP_2DUP, .op OP_2DUP] ∧
    some [pushNum 0, Instruction.op OP_DUP, .op OP_2DUP, .op OP_2DUP]
      ≠ some [pushNum 0, Instruction.op OP_DUP, .op OP_2DUP, .op OP_3DUP] := by
  decide

/-- Claim C5 (confirmed).  The optimiser deletes an adjacent
`OP_TOALTSTACK; OP_FROMALTSTACK` pair wherever the scan encounters one
(`stage1`), and on the two-instruction script consisting of exactly that
pair it terminates normally (under the release-build wrap-around semantics
of the `usize` index) and returns the empty script. -/
theorem claim5_alt_cancel :
    optimize [Instruction.op OP_TOALTSTACK, Instruction.op OP_FROMALTSTACK] = some [] ∧
    ∀ (l : List Instruction) (i : Nat),
      l[i]? = some (.op OP_TOALTSTACK) → l[i + 1]? = some (.op OP_FROMALTSTACK) →
      (stage1 l i).1 = l.take i ++ l.drop (i + 2) := by
  refine ⟨by decide, ?_⟩
  intro l i h1 h2
  unfold stage1
  rw [if_pos ⟨h1, (List.getElem?_eq_some.mp h2).1, h2⟩]
  rfl

/-- Witness for `claim5_alt_cancel`'s quantified conjunct at the
two-instruction script. -/
theorem claim5_alt_cancel_witness :
    (([Instruction.op OP_TOALTSTACK, Instruction.op OP_FROMALTSTACK] :
        List Instruction)[0]? = some (.op OP_TOALTSTACK) ∧
      ([Instruction.op OP_TOALTSTACK, Instruction.op OP_FROMALTSTACK] :
        List Instruction)[0 + 1]? = some (.op OP_FROMALTSTACK)) ∧
    (stage1 [Instruction.op OP_TOALTSTACK, Instruction.op OP_FROMALTSTACK] 0).1 = [] :=
  ⟨⟨by decide, by decide⟩, by
    have h := claim5_alt_cancel.2
      [Instruction.op OP_TOALTSTACK, Instruction.op OP_FROMALTSTACK] 0
      (by decide) (by decide)
    simpa using h⟩

/-- Claim C6 (confirmed).  `op_ifdup` and `op_roll` are refused
unconditionally: each returns an error (the source panics with the same
message before performing any mutation), and no invocation can produce a
successor tracker, so the tracker is left completely unchanged. -/
theorem claim6_refused : ∀ t : StackTracker,
    t.op_ifdup = Except.error
      "OP_IFDUP not implemented as it's not possible to know if it would output a value" ∧
    t.op_roll = Except.error
      "OP_ROLL not implemented as it would consume an undefined position on the stack" ∧
    (∀ t' x, t.op_ifdup ≠ Except.ok (t', x)) ∧
    (∀ t' x, t.op_roll ≠ Except.ok (t', x)) := by
  intro t
  refine ⟨rfl, rfl, ?_, ?_⟩
  · intro t' x h
    simp [StackTracker.op_ifdup] at h
  · intro t' x h
    simp [StackTracker.op_roll] at h

theorem copy_from_one (a : Nat) : copy_from a 1 = [pushNum a, Instruction.op OP_PICK] := by
  simp [copy_from]

theorem move_from_one (a : Nat) : move_from a 1 = [pushNum a, Instruction.op OP_ROLL] := by
  simp [move_from]

/-- Claim C7 (confirmed).  `move_var` of a variable whose offset is 0 (the
variable is on top of the main stack) emits nothing and appends nothing:
the tracker is returned completely unchanged together with the unchanged
variable, and repeating the call gives the same result (idempotence). -/
theorem claim7_move_top_noop : ∀ (t : StackTracker) (v : StackVariable),
    t.get_offset v = some 0 →
    t.move_var v = some (t, v) ∧
    (t.move_var v).bind (fun r => r.1.move_var r.2) = some (t, v) := by
  intro t v h
  have h1 : t.move_var v = some (t, v) := by
    simp [StackTracker.move_var, h]
  exact ⟨h1, by rw [h1]; simpa using h1⟩

/-- Witness for `claim7_move_top_noop`: a freshly defined variable sits on
top of the stack with offset 0 and is returned unchanged. -/
theorem claim7_move_top_noop_witness :
    (StackTracker.defineT StackTracker.new 1 "x").1.get_offset
        (StackTracker.defineT StackTracker.new 1 "x").2 = some 0 ∧
    (StackTracker.defineT StackTracker.new 1 "x").1.move_var
        (StackTracker.defineT StackTracker.new 1 "x").2
      = some ((StackTracker.defineT StackTracker.new 1 "x").1,
          (StackTracker.defineT StackTracker.new 1 "x").2) :=
  ⟨by decide, (claim7_move_top_noop _ _ (by decide)).1⟩

/-- Claim C10 (confirmed).  `debug` is not read-only: it appends one empty
fragment and one history entry, so `get_script_len` grows by one, while
the concatenated script returned by `get_script` is unchanged. -/
theorem claim10_debug_frame : ∀ t : StackTracker, t.with_history = true →
    (t.debugT).get_script_len = t.get_script_len + 1 ∧
    (t.debugT).get_script = t.get_script ∧
    (t.debugT).history.length = t.history.length + 1 := by
  intro t h
  refine ⟨?_, ?_, ?_⟩
  · simp [StackTracker.debugT, StackTracker.get_script_len, push_scriptF_script]
  · simp [StackTracker.debugT, StackTracker.get_script, push_scriptF_script]
  · simp [StackTracker.debugT, push_scriptF_history _ _ h]

/-- Witness for `claim10_debug_frame` on the fresh tracker. -/
theorem claim10_debug_frame_witness :
    StackTracker.new.with_history = true ∧
    (StackTracker.new.debugT).get_script_len = StackTracker.new.get_script_len + 1 :=
  ⟨rfl, (claim10_debug_frame StackTracker.new rfl).1⟩

/-- Claim C1 (amended).  A verb that emits script appends exactly one
fragment and one history entry and that entry records the journal length
after the verb's model mutations (the journal length at the moment
`push_script` runs, which is the verb's last action); `define` and `join`
append no fragment and no history entry at all.  `fragCount` gives each
verb's count: 0 for `define`, `rename`, `join` and for `move_var` of a
variable already on top, 1 otherwise. -/
theorem claim1_amended : ∀ (t : StackTracker) (vb : Verb) (t' : StackTracker),
    t.with_history = true → t.data.with_redo_log = true → runVerb t vb = some t' →
    (t'.script.length = t.script.length + fragCount t vb ∧
      t'.history.length = t.history.length + fragCount t vb ∧
      (fragCount t vb = 1 → t'.history.getLast? = some t'.data.redo_log.length)) ∧
    (∀ sz nm, fragCount t (Verb.vdefine sz nm) = 0) ∧
    (∀ w, fragCount t (Verb.vjoin w) = 0) := by
  intro t vb t' hwh hwl h
  obtain ⟨_, _, a3, a4, _, _, _, a8, _, _⟩ := runVerb_ok t t' vb hwh hwl h
  exact ⟨⟨a3, a4, a8⟩, fun sz nm => rfl, fun w => rfl⟩

/-- Witness for `claim1_amended` at `number 5` on the fresh tracker. -/
theorem claim1_amended_witness :
    (StackTracker.new.with_history = true ∧ StackTracker.new.data.with_redo_log = true ∧
      runVerb StackTracker.new (Verb.vnumber 5)
        = some ((StackTracker.numberT StackTracker.new 5).1)) ∧
    (StackTracker.numberT StackTracker.new 5).1.script.length
      = StackTracker.new.script.length + fragCount StackTracker.new (Verb.vnumber 5) :=
  ⟨⟨rfl, rfl, rfl⟩,
    ((claim1_amended StackTracker.new (Verb.vnumber 5) _ rfl rfl rfl).1).1⟩

/-- Counterexample to claim C1 as stated: `define` (and `join`) append no
fragment and no history entry - after `define` on a fresh tracker the
script list and the history are still empty, and after a real `join` the
script list is still empty; moreover the history entry recorded by `var`
is the journal length after the verb's two mutations (2), not the
pre-mutation length (0). -/
theorem claim1_counterexample :
    (runVerb StackTracker.new (Verb.vdefine 1 "x")).map (fun t => t.script.length)
      = some 0 ∧
    (runVerb StackTracker.new (Verb.vdefine 1 "x")).map (fun t => t.history.length)
      = some 0 ∧
    (runFrom StackTracker.new
        [Verb.vdefine 1 "a", Verb.vdefine 1 "b", Verb.vjoin ⟨1, 1⟩]).map
        (fun t => t.script.length)
      = some 0 ∧
    (runVerb StackTracker.new (Verb.vvar 1 [] "y")).map (fun t => t.history)
      = some [2] ∧
    (2 : Nat) ≠ 0 := by
  decide

/-- Claim C2 (amended).  `move_var_sub_n`/`copy_var_sub_n` emit exactly one
`OP_ROLL`/`OP_PICK` (preceded by its index push) with index
`get_offset(V) + V.size - 1 - n`; the entry addressed by `n = 0` is `V`'s
bottom (first-pushed) entry at depth `get_offset(V) + (V.size - 1)`, and
`n = V.size - 1` addresses `V`'s top (last-pushed) entry at depth
`get_offset(V)`. -/
theorem claim2_amended : ∀ (t : StackTracker) (v : StackVariable) (n off : Nat),
    t.get_offset v = some off → n < v.size →
    ((t.copy_var_sub_n v n).map (fun r => r.1.script)
        = some (t.script ++ [[pushNum (off + v.size - 1 - n), Instruction.op OP_PICK]])) ∧
    ((t.move_var_sub_n v n).map (fun r => r.1.script)
        = some (t.script ++ [[pushNum (off + v.size - 1 - n), Instruction.op OP_ROLL]])) ∧
    off + v.size - 1 - 0 = off + (v.size - 1) ∧
    (n + 1 = v.size → off + v.size - 1 - n = off) := by
  intro t v n off ho hn
  refine ⟨?_, ?_, by omega, fun h => by omega⟩
  · simp [StackTracker.copy_var_sub_n, ho, push_scriptF_script, copy_from_one,
      pushVar_script]
  · simp [StackTracker.move_var_sub_n, hn, ho, push_scriptF_script, move_from_one,
      pushVar_script]

/-- Witness for `claim2_amended`: a size-2 variable on top of the stack,
single-entry copy at `n = 0` emits `OP_PICK` with index 1. -/
theorem claim2_amended_witness :
    ((StackTracker.defineT StackTracker.new 2 "x").1.get_offset ⟨1, 2⟩ = some 0 ∧
      0 < (2 : Nat)) ∧
    ((StackTracker.defineT StackTracker.new 2 "x").1.copy_var_sub_n ⟨1, 2⟩ 0).map
        (fun r => r.1.script)
      = some ((StackTracker.defineT StackTracker.new 2 "x").1.script
          ++ [[pushNum (0 + 2 - 1 - 0), Instruction.op OP_PICK]]) :=
  ⟨⟨by decide, by decide⟩,
    (claim2_amended (StackTracker.defineT StackTracker.new 2 "x").1 ⟨1, 2⟩ 0 0
      (by decide) (by decide)).1⟩

/-- Counterexample to claim C2 as stated: for a size-2 variable on top of
the stack (`get_offset = 0`, so its top/last-pushed entry is the concrete
stack top, depth 0), the single-entry copy at `n = 0` emits `OP_PICK` with
index 1 - the bottom (first-pushed) entry - not the top entry at depth 0. -/
theorem claim2_counterexample :
    (StackTracker.defineT StackTracker.new 2 "x").1.get_offset
        (StackTracker.defineT StackTracker.new 2 "x").2 = some 0 ∧
    ((StackTracker.defineT StackTracker.new 2 "x").1.copy_var_sub_n
        (StackTracker.defineT StackTracker.new 2 "x").2 0).map
        (fun r => r.1.script.getLast?)
      = some (some [pushNum 1, Instruction.op OP_PICK]) ∧
    pushNum 1 ≠ pushNum 0 := by
  decide

/-- Claim C4 (confirmed).  For any verb program split as `p ++ [vb] ++ q`
where `vb` appends fragment `k` (the last fragment of the tracker `t1`
reached after `vb`), replaying the first `history[k]` journal entries from
an empty model - at `t1` or at any later tracker `t2` - yields exactly the
journal-disabled model (`strip`) holding the main stack, alt stack and
name map that existed when fragment `k` was appended. -/
theorem claim4_replay_equivalence : ∀ (p : List Verb) (vb : Verb) (q : List Verb)
    (t0 t1 t2 : StackTracker),
    runFrom StackTracker.new p = some t0 →
    runVerb t0 vb = some t1 →
    fragCount t0 vb = 1 →
    runFrom t1 q = some t2 →
    ∃ k h, k + 1 = t1.script.length ∧
      t1.history[k]? = some h ∧ t2.history[k]? = some h ∧
      t1.data.new_from_redo_height h = some (strip t1.data) ∧
      t2.data.new_from_redo_height h = some (strip t1.data) := by
  intro p vb q t0 t1 t2 h0 hv hc hq
  have hinv0 := runFrom_inv p _ _ inv_new h0
  obtain ⟨_, _, _, a4, _, _, _, a8, _, _⟩ := runVerb_ok t0 t1 vb hinv0.1 hinv0.2.1 hv
  have hinv1 := inv_step t0 t1 vb hinv0 hv
  have hlen1 : t1.history.length = t0.history.length + 1 := by rw [a4, hc]
  have halign : t1.script.length = t1.history.length := hinv1.2.2.1
  have hk : t1.history.length - 1 + 1 = t1.script.length := by omega
  have hlast := a8 hc
  have hgl : t1.history[t1.history.length - 1]? = some t1.data.redo_log.length := by
    rw [← List.getLast?_eq_getElem? t1.history]
    exact hlast
  obtain ⟨_, ⟨f2, hf2⟩, ⟨f3, hf3⟩⟩ := runFrom_ext q t1 t2 hinv1 hq
  have hgl2 : t2.history[t1.history.length - 1]? = some t1.data.redo_log.length := by
    rw [hf2, List.getElem?_append_left (by omega)]
    exact hgl
  have hr1 : t1.data.new_from_redo_height t1.data.redo_log.length
      = some (strip t1.data) := nfrh_full _ hinv1.2.2.2.1
  have hr2 : t2.data.new_from_redo_height t1.data.redo_log.length
      = some (strip t1.data) := by
    rw [nfrh_stable t1.data t2.data f3 hf3 _ (le_refl _)]
    exact hr1
  exact ⟨t1.history.length - 1, t1.data.redo_log.length, hk, hgl, hgl2, hr1, hr2⟩

/-- Witness for `claim4_replay_equivalence` on the program
`number 1; to_altstack` split after `number 1`. -/
theorem claim4_replay_equivalence_witness :
    (runFrom StackTracker.new [] = some StackTracker.new ∧
      runVerb StackTracker.new (Verb.vnumber 1) = some witnessT1 ∧
      fragCount StackTracker.new (Verb.vnumber 1) = 1 ∧
      runFrom witnessT1 [Verb.vtoalt] = some witnessT2) ∧
    (∃ k h, k + 1 = witnessT1.script.length ∧
      witnessT1.history[k]? = some h ∧ witnessT2.history[k]? = some h ∧
      witnessT1.data.new_from_redo_height h = some (strip witnessT1.data) ∧
      witnessT2.data.new_from_redo_height h = some (strip witnessT1.data)) :=
  ⟨⟨rfl, rfl, rfl, rfl⟩,
    claim4_replay_equivalence [] (Verb.vnumber 1) [Verb.vtoalt] _ _ _ rfl rfl rfl rfl⟩

/-- Claim C9 (confirmed).  After any verb program from a fresh tracker,
`get_max_stack_size` equals the maximum - over every state reached,
the initial empty state included - of the sum of the `size` fields of the
variables on the main stack. -/
theorem claim9_max_stack : ∀ (p : List Verb) (sts : List StackTracker) (t : StackTracker),
    trace StackTracker.new p = some sts → runFrom StackTracker.new p = some t →
    t.get_max_stack_size
      = (sts.map (fun s => totalSize s.data.stack)).foldl Nat.max 0 := by
  intro p sts t htr hrun
  obtain ⟨tf, _, htf2, htf3⟩ := trace_max p StackTracker.new sts rfl rfl (le_refl 0) htr
  have heq : t = tf := by
    rw [hrun] at htf2
    exact Option.some.inj htf2
  rw [StackTracker.get_max_stack_size, heq, htf3]
  rfl

/-- Witness for `claim9_max_stack` on the one-verb program `number 1`. -/
theorem claim9_max_stack_witness :
    (trace StackTracker.new [Verb.vnumber 1]
        = some [StackTracker.new, witnessT1] ∧
      runFrom StackTracker.new [Verb.vnumber 1] = some witnessT1) ∧
    witnessT1.get_max_stack_size
      = ([StackTracker.new, witnessT1].map (fun s => totalSize s.data.stack)).foldl
          Nat.max 0 :=
  ⟨⟨rfl, rfl⟩, claim9_max_stack [Verb.vnumber 1] [StackTracker.new, witnessT1]
    witnessT1 rfl rfl⟩

/-- Claim C8 (confirmed).  For every reachable tracker and every step index
`k` within the script list, `execute_step` returns a `StepResult` whose
`success` flag is true exactly when `k` is the last step and the external
executor reports success; in particular `success` is false for every
`k < script_len - 1` regardless of the executor's outcome. -/
theorem claim8_step_success : ∀ (p : List Verb) (t : StackTracker)
    (runner : Frag → ExecOutcome) (k : Nat),
    runFrom StackTracker.new p = some t → k < t.script.length →
    ∃ res, execute_step runner t k = some res ∧
      res.success = (decide (k = t.script.length - 1)
        && (runner ((t.script.take (k + 1)).flatten)).success) ∧
      (res.success = true ↔ (k = t.script.length - 1
        ∧ (runner ((t.script.take (k + 1)).flatten)).success = true)) ∧
      (k < t.script.length - 1 → res.success = false) := by
  intro p t runner k hrun hk
  obtain ⟨hwh, hwl, hal, hrep, _, hhb⟩ := runFrom_inv p StackTracker.new t inv_new hrun
  have hk2 : k < t.history.length := by omega
  have hgk : t.history[k]? = some t.history[k] := List.getElem?_eq_getElem hk2
  have hmem : t.history[k] ∈ t.history := List.getElem_mem hk2
  have hle : t.history[k] ≤ t.data.redo_log.length := hhb _ hmem
  obtain ⟨sd, hsd⟩ := nfrh_some_of_replayOk t.data t.history[k] hle hrep
  have hstep : execute_step runner t k = some
      { error := (runner ((t.script.take (k + 1)).flatten)).error.isSome
        error_msg := toString (repr (runner ((t.script.take (k + 1)).flatten)).error)
        success := decide (k = t.script.length - 1)
          && (runner ((t.script.take (k + 1)).flatten)).success
        last_opcode := (runner ((t.script.take (k + 1)).flatten)).lastOpcode
        stack := show_stacks sd sd.stack
          (runner ((t.script.take (k + 1)).flatten)).stackEntries false
        altstack := show_stacks sd sd.altstack
          (runner ((t.script.take (k + 1)).flatten)).altEntries true } := by
    unfold execute_step
    simp only [hgk, hsd]
  refine ⟨_, hstep, rfl, ?_, ?_⟩
  · simp
  · intro hlt
    have hne : k ≠ t.script.length - 1 := by omega
    simp [hne]

/-- Witness for `claim8_step_success` on the one-step program `number 1`
with a constant executor. -/
theorem claim8_step_success_witness :
    (runFrom StackTracker.new [Verb.vnumber 1] = some witnessT1 ∧
      0 < witnessT1.script.length) ∧
    (∃ res, execute_step (fun _ => ⟨true, none, [], [], ""⟩) witnessT1 0 = some res ∧
      res.success = (decide (0 = witnessT1.script.length - 1)
        && ((fun (_ : Frag) => (⟨true, none, [], [], ""⟩ : ExecOutcome))
            ((witnessT1.script.take (0 + 1)).flatten)).success)) :=
  ⟨⟨rfl, by decide⟩, by
    obtain ⟨res, h1, h2, _, _⟩ := claim8_step_success [Verb.vnumber 1] witnessT1
      (fun _ => ⟨true, none, [], [], ""⟩) 0 rfl (by decide)
    exact ⟨res, h1, h2⟩⟩
